import Mathlib

/-!
Process attribution core of the opensnitch daemon.

A shallow embedding of `daemon/procmon/parse.go` and of `loadConfiguration`
in `daemon/ui/config.go`:

* `getPIDFromAuditEvents`, `GetPIDFromINode` : socket inode to PID resolution,
* `cleanPath`, `parseCmdLine`, `parseCWD`, `parseEnv`, `FindProcess` :
  construction of a process descriptor from a PID,
* `loadConfiguration` : runtime selection of the monitor method.

Go strings are byte strings and are modelled as lists of byte values.  Go `int`
values are modelled as `Int`; the code performs no arithmetic on them.

The functions of the package that live in other files (the two caches, the
ownership matcher, the `/proc` scan, the audit and tracer collaborators) are
taken as parameters, bundled in `Collab`.  Every call to one of them is
recorded in a trace, so that statements of the form "without invoking ..." and
"... before ..." can be expressed.
-/

namespace Procmon

/-! ## Byte strings -/

/-- A Go `string` (or `[]byte`): a finite sequence of byte values. -/
abbrev GoString := List Nat

/-- The byte string of an ASCII literal. -/
def lit (s : String) : GoString := s.toList.map Char.toNat

/-- Decimal rendering of an `int`, as produced by the `%d` verb and by
`fmt.Sprint` applied to an `int`. -/
def itoa (n : Int) : GoString :=
  match n with
  | Int.ofNat k => (Nat.toDigits 10 k).map Char.toNat
  | Int.negSucc k => lit "-" ++ (Nat.toDigits 10 (k + 1)).map Char.toNat

/-- The name of an entry of a process in the process filesystem, as built by
`fmt.Sprintf("/proc/%d/cmdline", pid)` or `fmt.Sprint("/proc/", pid, "/exe")`. -/
def procPath (pid : Int) (entry : GoString) : GoString :=
  lit "/proc/" ++ itoa pid ++ entry

/-- The name of the executable link of `pid`, `fmt.Sprint("/proc/", pid, "/exe")`. -/
def exeLink (pid : Int) : GoString :=
  procPath pid (lit "/exe")

/-! ## Monitor methods -/

/-- Modelled from the spec: the constant `MethodFtrace` is declared outside
`parse.go`; its value is the method name used in the doc comment of
`GetPIDFromINode`. -/
def MethodFtrace : GoString := lit "ftrace"

/-- Modelled from the spec: the constant `MethodAudit` is declared outside
`parse.go`; its value is the method name used in the doc comment of
`GetPIDFromINode`. -/
def MethodAudit : GoString := lit "audit"

/-- Modelled from the spec: the constant `MethodProc` is declared outside
`parse.go`; its value is the method name used in the doc comment of
`GetPIDFromINode`. -/
def MethodProc : GoString := lit "proc"

/-! ## Collaborators of the resolution orchestrator -/

/-- Modelled from the spec: `audit.Event` is declared in the audit package; the
fields are the ones the spec lists for an Audit Event Record (pid, parent pid,
recorded executable path, recorded command line, recorded working
directory), under the names `parse.go` uses for them. -/
structure Event where
  Pid : Int
  PPid : Int
  ProcPath : GoString
  ProcCmdLine : GoString
  ProcDir : GoString
deriving DecidableEq

/-- One live process as handed to the visitor of `forEachProcess`. -/
structure LiveProc where
  pid : Int
  path : GoString
  args : List GoString
deriving DecidableEq

/-- A call made by `GetPIDFromINode` or `getPIDFromAuditEvents` to a function
defined outside `parse.go`, with its arguments. -/
inductive Call where
  | cleanUpCaches
  | getPidByInodeFromCache (inodeKey : GoString)
  | getPidFromCache (inode : Int) (inodeKey expect : GoString)
  | sortProcEntries
  | GetEvents
  | inodeFound (pidsPath expect inodeKey : GoString) (inode pid : Int)
  | IsWatcherAvailable
  | forEachProcess
  | lookupPidInProc (pidsPath expect inodeKey : GoString) (inode : Int)
deriving DecidableEq

/-- Modelled from the spec: the functions `GetPIDFromINode` calls that are
defined outside `parse.go`.  `κ` is the state of the two caches.  The cache
operations read and may update that state.  The ownership matcher, the
`/proc` scan, the audit event sequence, the tracer's capability probe and the
tracer's sequence of live processes are read from a snapshot of the system
that does not change during one resolution. -/
structure Collab (κ : Type) where
  cleanUpCaches : κ → κ
  getPidByInodeFromCache : GoString → κ → Int × κ
  getPidFromCache : Int → GoString → GoString → κ → (Int × Int) × κ
  sortProcEntries : κ → κ
  GetEvents : List Event
  inodeFound : GoString → GoString → GoString → Int → Int → Bool
  IsWatcherAvailable : Bool
  liveProcs : List LiveProc
  lookupPidInProc : GoString → GoString → GoString → Int → Int

/-- The state threaded through a resolution: the caches and the trace of
calls made so far (oldest first). -/
structure St (κ : Type) where
  caches : κ
  trace : List Call

/-! ## `getPIDFromAuditEvents` -/

/-- First loop of `getPIDFromAuditEvents` (lines 20-25), started at index `n`
on the events that remain. -/
def auditPidLoop {κ : Type} (c : Collab κ) (inode : Int) (inodeKey expect : GoString) :
    List Event → Nat → List Call → Option (Int × Int) × List Call
  | [], _, tr => (none, tr)
  | e :: es, n, tr =>
    let pid := e.Pid
    let tr1 := tr ++ [Call.inodeFound (lit "/proc/") expect inodeKey inode pid]
    if c.inodeFound (lit "/proc/") expect inodeKey inode pid then
      (some (pid, (n : Int)), tr1)
    else
      auditPidLoop c inode inodeKey expect es (n + 1) tr1

/-- Second loop of `getPIDFromAuditEvents` (lines 26-31), started at index `n`
on the events that remain. -/
def auditPPidLoop {κ : Type} (c : Collab κ) (inode : Int) (inodeKey expect : GoString) :
    List Event → Nat → List Call → Option (Int × Int) × List Call
  | [], _, tr => (none, tr)
  | e :: es, n, tr =>
    let ppid := e.PPid
    let tr1 := tr ++ [Call.inodeFound (lit "/proc/") expect inodeKey inode ppid]
    if c.inodeFound (lit "/proc/") expect inodeKey inode ppid then
      (some (ppid, (n : Int)), tr1)
    else
      auditPPidLoop c inode inodeKey expect es (n + 1) tr1

/-- The function `getPIDFromAuditEvents` of `parse.go` (lines 15-33).  The
read lock is not modelled. -/
def getPIDFromAuditEvents {κ : Type} (c : Collab κ) (inode : Int) (inodeKey expect : GoString)
    (tr : List Call) : (Int × Int) × List Call :=
  let auditEvents := c.GetEvents
  let tr0 := tr ++ [Call.GetEvents]
  match auditPidLoop c inode inodeKey expect auditEvents 0 tr0 with
  | (some r, tr1) => (r, tr1)
  | (none, tr1) =>
    match auditPPidLoop c inode inodeKey expect auditEvents 0 tr1 with
    | (some r, tr2) => (r, tr2)
    | (none, tr2) => ((-1, -1), tr2)

/-! ## `GetPIDFromINode` -/

/-- Modelled from the spec: `forEachProcess` is defined outside `parse.go`.
It visits the live processes one at a time and stops as soon as the visitor
returns `true`.  The visitor may update the variables it captures, here the
state `α`. -/
def forEachProcess {α : Type} (cb : Int → GoString → List GoString → α → Bool × α) :
    List LiveProc → α → α
  | [], a => a
  | p :: ps, a =>
    match cb p.pid p.path p.args a with
    | (true, a1) => a1
    | (false, a1) => forEachProcess cb ps a1

/-- The label `fmt.Sprintf("socket:[%d]", inode)` of line 52. -/
def socketLabel (inode : Int) : GoString :=
  lit "socket:[" ++ itoa inode ++ lit "]"

/-- Lines 80-85 of `GetPIDFromINode`: the `/proc` scan is run when nothing was
found or when the method is `proc`, and the result is returned. -/
def lookupTail {κ : Type} (c : Collab κ) (MonitorMethod : GoString) (inode : Int)
    (inodeKey expect : GoString) (found : Int) (s : St κ) : Int × St κ :=
  if found = -1 ∨ MonitorMethod = MethodProc then
    (c.lookupPidInProc (lit "/proc/") expect inodeKey inode,
      { s with trace := s.trace ++ [Call.lookupPidInProc (lit "/proc/") expect inodeKey inode] })
  else
    (found, s)

/-- The visitor `GetPIDFromINode` passes to `forEachProcess` (lines 71-78).
The captured state is the variable `found` and the trace. -/
def tracerVisitor {κ : Type} (c : Collab κ) (inode : Int) (inodeKey expect : GoString)
    (pid : Int) (_path : GoString) (_args : List GoString) (a : Int × List Call) :
    Bool × (Int × List Call) :=
  let tr := a.2 ++ [Call.inodeFound (lit "/proc/") expect inodeKey inode pid]
  if c.inodeFound (lit "/proc/") expect inodeKey inode pid then
    (true, (pid, tr))
  else
    (false, (a.1, tr))

/-- The function `GetPIDFromINode` of `parse.go` (lines 44-86).
`MonitorMethod` is the package variable of that name.  Timing and logging are
not modelled. -/
def GetPIDFromINode {κ : Type} (c : Collab κ) (MonitorMethod : GoString) (inode : Int)
    (inodeKey : GoString) (s : St κ) : Int × St κ :=
  let found : Int := -1
  if inode ≤ 0 then
    (found, s)
  else
    let s1 : St κ := { caches := c.cleanUpCaches s.caches, trace := s.trace ++ [Call.cleanUpCaches] }
    let expect := socketLabel inode
    let r2 := c.getPidByInodeFromCache inodeKey s1.caches
    let s2 : St κ := { caches := r2.2, trace := s1.trace ++ [Call.getPidByInodeFromCache inodeKey] }
    if r2.1 ≠ -1 then
      (r2.1, s2)
    else
      let r3 := c.getPidFromCache inode inodeKey expect s2.caches
      let s3 : St κ :=
        { caches := r3.2, trace := s2.trace ++ [Call.getPidFromCache inode inodeKey expect] }
      if r3.1.1 ≠ -1 then
        (r3.1.1, { caches := c.sortProcEntries s3.caches, trace := s3.trace ++ [Call.sortProcEntries] })
      else if MonitorMethod = MethodAudit then
        let r4 := getPIDFromAuditEvents c inode inodeKey expect s3.trace
        let s4 : St κ := { s3 with trace := r4.2 }
        if r4.1.1 ≠ -1 then
          (r4.1.1, s4)
        else
          lookupTail c MonitorMethod inode inodeKey expect found s4
      else if MonitorMethod = MethodFtrace then
        let s4 : St κ := { s3 with trace := s3.trace ++ [Call.IsWatcherAvailable] }
        if c.IsWatcherAvailable then
          let r5 := forEachProcess (tracerVisitor c inode inodeKey expect)
            c.liveProcs (found, s4.trace ++ [Call.forEachProcess])
          lookupTail c MonitorMethod inode inodeKey expect r5.1 { s4 with trace := r5.2 }
        else
          lookupTail c MonitorMethod inode inodeKey expect found s4
      else
        lookupTail c MonitorMethod inode inodeKey expect found s3

/-! ## String helpers of the Go standard library -/

/-- The call `strings.Replace(s, old, new, -1)` for one-byte `old` and `new`;
also the in-place loop of `parseCmdLine` (lines 97-101). -/
def Replace (s : GoString) (old new : Nat) : GoString :=
  s.map (fun b => if b = old then new else b)

/-- The call `strings.Split(s, sep)` for a one-byte separator: the pieces of
`s` between consecutive occurrences of `sep`; always at least one piece. -/
def Split : GoString → Nat → List GoString
  | [], _ => [[]]
  | b :: bs, sep =>
    if b = sep then
      [] :: Split bs sep
    else
      match Split bs sep with
      | [] => [[b]]
      | w :: ws => (b :: w) :: ws

/-- The text before and the text after the first occurrence of `sep`, if `sep`
occurs (`strings.Index` followed by the two slices). -/
def cutFirst : GoString → Nat → Option (GoString × GoString)
  | [], _ => none
  | b :: bs, sep =>
    if b = sep then
      some ([], bs)
    else
      match cutFirst bs sep with
      | none => none
      | some (x, y) => some (b :: x, y)

/-- The call `strings.SplitN(s, sep, 2)` for a one-byte separator. -/
def SplitN2 (s : GoString) (sep : Nat) : List GoString :=
  match cutFirst s sep with
  | none => [s]
  | some (x, y) => [x, y]

/-- The bytes of the cut set of `core.Trim`: carriage return, line feed, tab
and space. -/
def isTrimByte (b : Nat) : Bool :=
  b == 13 || b == 10 || b == 9 || b == 32

/-- Modelled from the spec: `core.Trim` is defined in the core package, not in
`parse.go`.  It is taken to be `strings.Trim(s, "\r\n\t ")`: the white space
(carriage return, line feed, tab, space) at both ends of the string is
removed. -/
def Trim (s : GoString) : GoString :=
  (s.dropWhile isTrimByte).rdropWhile isTrimByte

/-! ## Process descriptors -/

/-- The environment of a descriptor, a Go `map[string]string`. -/
abbrev EnvMap := GoString → Option GoString

/-- The assignment `m[key] = val`. -/
def EnvMap.set (m : EnvMap) (key val : GoString) : EnvMap :=
  fun k => if k = key then some val else m k

/-- Modelled from the spec: the struct `Process` is declared outside
`parse.go`; the fields are the ones `parse.go` reads and writes. -/
structure Process where
  ID : Int
  Path : GoString
  Args : List GoString
  CWD : GoString
  Env : EnvMap

/-- Modelled from the spec: `NewProcess` is defined outside `parse.go`; it
returns a descriptor with the given id and path, no argument, an empty working
directory and an empty environment. -/
def NewProcess (pid : Int) (path : GoString) : Process :=
  { ID := pid, Path := path, Args := [], CWD := [], Env := fun _ => none }

/-- What `FindProcess` reads: the audit backend's lookup by pid and the
process filesystem.  `Lstat p` tells whether `os.Lstat(p)` succeeds;
`Readlink` and `ReadFile` give the content when the call succeeds. -/
structure Sys where
  GetEventByPid : Int → Option Event
  Lstat : GoString → Bool
  Readlink : GoString → Option GoString
  ReadFile : GoString → Option GoString

/-- A call made by `FindProcess` and its helpers to the audit backend or to the
process filesystem. -/
inductive SysCall where
  | GetEventByPid (pid : Int)
  | Lstat (name : GoString)
  | Readlink (name : GoString)
  | ReadFile (name : GoString)
deriving DecidableEq

/-- The kernel's deleted-file marker. -/
def deletedMarker : GoString := lit " (deleted)"

/-- The function `cleanPath` of `parse.go` (lines 88-93). -/
def cleanPath (proc : Process) : Process :=
  let pathLen := proc.Path.length
  if pathLen ≥ 10 ∧ proc.Path.drop (pathLen - 10) = lit " (deleted)" then
    { proc with Path := proc.Path.take (proc.Path.length - 10) }
  else
    proc

/-- The function `parseCmdLine` of `parse.go` (lines 95-111). -/
def parseCmdLine (sys : Sys) (proc : Process) (log : List SysCall) : Process × List SysCall :=
  let name := procPath proc.ID (lit "/cmdline")
  let log1 := log ++ [SysCall.ReadFile name]
  match sys.ReadFile name with
  | some data =>
    let data1 := Replace data 0 32
    let args := Split data1 32
    ({ proc with
        Args := args.foldl
          (fun acc arg => let arg1 := Trim arg; if arg1 ≠ [] then acc ++ [arg1] else acc)
          proc.Args },
      log1)
  | none => (proc, log1)

/-- The function `parseCWD` of `parse.go` (lines 113-117). -/
def parseCWD (sys : Sys) (proc : Process) (log : List SysCall) : Process × List SysCall :=
  let name := procPath proc.ID (lit "/cwd")
  let log1 := log ++ [SysCall.Readlink name]
  match sys.Readlink name with
  | some link => ({ proc with CWD := link }, log1)
  | none => (proc, log1)

/-- The body of the loop of `parseEnv` (lines 122-127) for one entry `s`. -/
def parseEnvEntry (env : EnvMap) (s : GoString) : EnvMap :=
  match SplitN2 (Trim s) 61 with
  | [p0, p1] =>
    let key := Trim p0
    let val := Trim p1
    env.set key val
  | _ => env

/-- The function `parseEnv` of `parse.go` (lines 119-130). -/
def parseEnv (sys : Sys) (proc : Process) (log : List SysCall) : Process × List SysCall :=
  let name := procPath proc.ID (lit "/environ")
  let log1 := log ++ [SysCall.ReadFile name]
  match sys.ReadFile name with
  | some data => ({ proc with Env := (Split data 0).foldl parseEnvEntry proc.Env }, log1)
  | none => (proc, log1)

/-- The function `FindProcess` of `parse.go` (lines 135-169); `none` is the
nil pointer.  The second component is the list of calls made to the audit
backend and to the process filesystem, oldest first. -/
def FindProcess (sys : Sys) (MonitorMethod : GoString) (pid : Int) (interceptUnknown : Bool) :
    Option Process × List SysCall :=
  if interceptUnknown = true ∧ pid < 0 then
    (some (NewProcess 0 (lit "")), [])
  else
    let audited : Option Event × List SysCall :=
      if MonitorMethod = MethodAudit then
        (sys.GetEventByPid pid, [SysCall.GetEventByPid pid])
      else
        (none, [])
    match audited with
    | (some aevent, log0) =>
      let proc := NewProcess pid aevent.ProcPath
      let proc := { proc with Args := Split (Replace aevent.ProcCmdLine 0 32) 32 }
      let proc := { proc with CWD := aevent.ProcDir }
      let r := parseEnv sys proc log0
      (some (cleanPath r.1), r.2)
    | (none, log0) =>
      let linkName := exeLink pid
      let log1 := log0 ++ [SysCall.Lstat linkName]
      if sys.Lstat linkName = false then
        (none, log1)
      else
        let log2 := log1 ++ [SysCall.Readlink linkName]
        match sys.Readlink linkName with
        | some link =>
          let proc := NewProcess pid link
          let r1 := parseCmdLine sys proc log2
          let r2 := parseCWD sys r1.1 r1.2
          let r3 := parseEnv sys r2.1 r2.2
          (some (cleanPath r3.1), r3.2)
        | none => (none, log2)

/-! ## `loadConfiguration` (`daemon/ui/config.go`) -/

/-- Modelled from the spec: the type of the package variable `config` is
declared outside `config.go`; the fields are the ones `loadConfiguration`
reads.  `LogLevel` is a pointer to an unsigned 32-bit integer; `none` is the
nil pointer. -/
structure Config where
  DefaultAction : GoString
  DefaultDuration : GoString
  LogLevel : Option Nat
  ProcMonitorMethod : GoString
deriving DecidableEq

/-- Modelled from the spec: `rule.Rule` is declared in the rule package; the
fields are the ones `loadConfiguration` writes.  `rule.Action` and
`rule.Duration` are string types. -/
structure Rule where
  Action : GoString
  Duration : GoString
deriving DecidableEq

/-- The package variables `loadConfiguration` reads and writes: `config`,
`clientDisconnectedRule`, `clientErrorRule`, `log.MinLevel` and
`procmon.MonitorMethod`. -/
structure Globals where
  config : Config
  clientDisconnectedRule : Rule
  clientErrorRule : Rule
  MinLevel : Int
  MonitorMethod : GoString
deriving DecidableEq

/-- The function `loadConfiguration` of `config.go` (lines 33-58).
`Unmarshal raw cfg` stands for the standard library call
`json.Unmarshal(rawConfig, &config)`: it gives the configuration the call
leaves in `config` and whether the call returned no error.  The lock is not
modelled. -/
def loadConfiguration (Unmarshal : GoString → Config → Config × Bool) (rawConfig : GoString)
    (g : Globals) : Bool × Globals :=
  let r := Unmarshal rawConfig g.config
  let g0 : Globals := { g with config := r.1 }
  if r.2 = false then
    (false, g0)
  else
    let g1 : Globals :=
      if g0.config.DefaultAction ≠ lit "" then
        { g0 with
          clientDisconnectedRule := { g0.clientDisconnectedRule with Action := g0.config.DefaultAction }
          clientErrorRule := { g0.clientErrorRule with Action := g0.config.DefaultAction } }
      else g0
    let g2 : Globals :=
      if g1.config.DefaultDuration ≠ lit "" then
        { g1 with
          clientDisconnectedRule :=
            { g1.clientDisconnectedRule with Duration := g1.config.DefaultDuration }
          clientErrorRule := { g1.clientErrorRule with Duration := g1.config.DefaultDuration } }
      else g1
    let g3 : Globals :=
      match g2.config.LogLevel with
      | some level => { g2 with MinLevel := (level : Int) }
      | none => g2
    let g4 : Globals :=
      if g3.config.ProcMonitorMethod ≠ lit "" then
        { g3 with MonitorMethod := g3.config.ProcMonitorMethod }
      else g3
    (true, g4)

/-! ## Specification-side definitions

The definitions below are not translations of code.  They phrase what the
claims say, so that the code can be compared with them. -/

/-- The verdict of the ownership matcher for `pid`, with the arguments
`GetPIDFromINode` passes for `inode` and `inodeKey`. -/
def owns {κ : Type} (c : Collab κ) (inode : Int) (inodeKey : GoString) (pid : Int) : Bool :=
  c.inodeFound (lit "/proc/") (socketLabel inode) inodeKey inode pid

/-- The trace entry of one ownership test. -/
def ownsCall (inode : Int) (inodeKey expect : GoString) (pid : Int) : Call :=
  Call.inodeFound (lit "/proc/") expect inodeKey inode pid

/-- The common shape of the two loops of `getPIDFromAuditEvents`: `sel` picks
the candidate pid of an event. -/
def auditLoop {κ : Type} (c : Collab κ) (inode : Int) (inodeKey expect : GoString)
    (sel : Event → Int) : List Event → Nat → List Call → Option (Int × Int) × List Call
  | [], _, tr => (none, tr)
  | e :: es, n, tr =>
    if c.inodeFound (lit "/proc/") expect inodeKey inode (sel e) then
      (some (sel e, (n : Int)), tr ++ [ownsCall inode inodeKey expect (sel e)])
    else
      auditLoop c inode inodeKey expect sel es (n + 1) (tr ++ [ownsCall inode inodeKey expect (sel e)])

/-- The PID the audit correlation is specified to produce: the recorded pid of
the first event whose pid passes the matcher, else the recorded parent pid of
the first event whose parent pid passes, else `-1`. -/
def auditPid {κ : Type} (c : Collab κ) (inode : Int) (inodeKey : GoString) : Int :=
  match c.GetEvents.find? (fun e => owns c inode inodeKey e.Pid) with
  | some e => e.Pid
  | none =>
    match c.GetEvents.find? (fun e => owns c inode inodeKey e.PPid) with
    | some e => e.PPid
    | none => -1

/-- The PID the tracer iteration is specified to produce: the pid of the first
live process that passes the matcher, else `-1`. -/
def tracerPid {κ : Type} (c : Collab κ) (inode : Int) (inodeKey : GoString) : Int :=
  match c.liveProcs.find? (fun p => owns c inode inodeKey p.pid) with
  | some p => p.pid
  | none => -1

/-- The PID produced by the configured backend, `-1` when it produces none:
the audit correlation under the audit method, the tracer iteration under the
ftrace method with an available watcher, nothing otherwise. -/
def backendPid {κ : Type} (c : Collab κ) (MonitorMethod : GoString) (inode : Int)
    (inodeKey : GoString) : Int :=
  if MonitorMethod = MethodAudit then auditPid c inode inodeKey
  else if MonitorMethod = MethodFtrace ∧ c.IsWatcherAvailable = true then tracerPid c inode inodeKey
  else -1

/-- Whether a trace entry is a run of the `/proc` scan. -/
def Call.isScan : Call → Bool
  | Call.lookupPidInProc _ _ _ _ => true
  | _ => false

/-- The state of the caches after the age-out and the inode-cache lookup of
`GetPIDFromINode`. -/
def afterInodeLookup {κ : Type} (c : Collab κ) (inodeKey : GoString) (k : κ) : κ :=
  (c.getPidByInodeFromCache inodeKey (c.cleanUpCaches k)).2

/-- Both caches miss, from the cache state `k`: the inode-cache lookup made
after the age-out answers `-1`, and so does the PID-cache scan that follows. -/
def cachesMiss {κ : Type} (c : Collab κ) (inode : Int) (inodeKey : GoString) (k : κ) : Prop :=
  (c.getPidByInodeFromCache inodeKey (c.cleanUpCaches k)).1 = -1 ∧
  (c.getPidFromCache inode inodeKey (socketLabel inode) (afterInodeLookup c inodeKey k)).1.1 = -1

/-! ## Examples -/

/-- The synthetic process tree of the spec: pid 100 holds `socket:[555]`, the
caches are empty. -/
def treeCollab (events : List Event) (watcher : Bool) (procs : List LiveProc) : Collab Unit :=
  { cleanUpCaches := fun k => k
    getPidByInodeFromCache := fun _ k => (-1, k)
    getPidFromCache := fun _ _ _ k => ((-1, -1), k)
    sortProcEntries := fun k => k
    GetEvents := events
    inodeFound := fun _ expect _ _ pid => decide (expect = lit "socket:[555]" ∧ pid = 100)
    IsWatcherAvailable := watcher
    liveProcs := procs
    lookupPidInProc := fun _ expect _ _ => if expect = lit "socket:[555]" then 100 else -1 }

/-- An audit event that records only a pid and a parent pid. -/
def mkEvent (pid ppid : Int) : Event :=
  { Pid := pid, PPid := ppid, ProcPath := [], ProcCmdLine := [], ProcDir := [] }

/-- A start state with no call recorded. -/
def st0 : St Unit := { caches := (), trace := [] }

/-- The key an environment entry defines: the white-space-trimmed text before
its first `=` (byte 61). -/
def envKey (s : GoString) : GoString :=
  Trim (s.takeWhile (fun b => b != 61))

/-- The value an environment entry defines: the white-space-trimmed text
after its first `=`. -/
def envVal (s : GoString) : GoString :=
  Trim ((s.dropWhile (fun b => b != 61)).drop 1)

/-- The environment the spec describes for a list of entries: `k` maps to the
value of the last entry that contains `=` and whose key is `k`; when there is
no such entry `k` keeps the value it had. -/
def envLookup (entries : List GoString) (env0 : EnvMap) (k : GoString) : Option GoString :=
  match (entries.filter (fun s => decide (61 ∈ s) && decide (envKey s = k))).getLast? with
  | some s => some (envVal s)
  | none => env0 k

/-- The non-empty strings of a list, in order. -/
def nonEmpty (ws : List GoString) : List GoString :=
  ws.filter (fun w => decide (w ≠ []))

/-- The calls `FindProcess` makes before it reads the executable link: the
audit lookup, under the audit method only. -/
def auditLog (MonitorMethod : GoString) (pid : Int) : List SysCall :=
  if MonitorMethod = MethodAudit then [SysCall.GetEventByPid pid] else []

/-- A process filesystem with the single process 7, whose working directory
is `/home`, and an audit backend without records. -/
def liveSys (exe cmdline environ : GoString) : Sys :=
  { GetEventByPid := fun _ => none
    Lstat := fun name => decide (name = lit "/proc/7/exe")
    Readlink := fun name =>
      if name = lit "/proc/7/exe" then some exe
      else if name = lit "/proc/7/cwd" then some (lit "/home")
      else none
    ReadFile := fun name =>
      if name = lit "/proc/7/cmdline" then some cmdline
      else if name = lit "/proc/7/environ" then some environ
      else none }

/-- An audit backend that holds one record, for pid 200, over a process
filesystem without any entry: the record is stale. -/
def auditSys (path cmdline : GoString) : Sys :=
  { GetEventByPid := fun pid =>
      if pid = 200 then
        some { Pid := 200, PPid := 1, ProcPath := path, ProcCmdLine := cmdline, ProcDir := lit "/" }
      else none
    Lstat := fun _ => false
    Readlink := fun _ => none
    ReadFile := fun _ => none }

/-- Whether a trace entry is a call to a backend: the audit event sequence,
the ownership matcher, the tracer's probe and iteration, the `/proc` scan. -/
def Call.isBackend : Call → Bool
  | Call.GetEvents => true
  | Call.inodeFound _ _ _ _ _ => true
  | Call.IsWatcherAvailable => true
  | Call.forEachProcess => true
  | Call.lookupPidInProc _ _ _ _ => true
  | _ => false

/-- The result of the inode-cache lookup of `GetPIDFromINode`, made on the
aged-out caches. -/
def inodeLookup {κ : Type} (c : Collab κ) (inodeKey : GoString) (k : κ) : Int × κ :=
  c.getPidByInodeFromCache inodeKey (c.cleanUpCaches k)

/-- The result of the PID-cache scan of `GetPIDFromINode`, made on the caches
the inode-cache lookup leaves. -/
def pidLookup {κ : Type} (c : Collab κ) (inode : Int) (inodeKey : GoString) (k : κ) :
    (Int × Int) × κ :=
  c.getPidFromCache inode inodeKey (socketLabel inode) (inodeLookup c inodeKey k).2

/-- Collaborators with warm caches.  The cache state is the scan order of the
PID cache.  The age-out drops the entry `0`; the inode cache answers
`inodePid`; the PID-cache scan answers `pidPid`; the promotion moves `pidPid`
to the front.  No backend finds anything. -/
def cacheCollab (inodePid pidPid : Int) : Collab (List Int) :=
  { cleanUpCaches := fun k => k.filter (fun p => decide (p ≠ 0))
    getPidByInodeFromCache := fun _ k => (inodePid, k)
    getPidFromCache := fun _ _ _ k => ((pidPid, 0), k)
    sortProcEntries := fun k => pidPid :: k.erase pidPid
    GetEvents := []
    inodeFound := fun _ _ _ _ _ => false
    IsWatcherAvailable := false
    liveProcs := []
    lookupPidInProc := fun _ _ _ _ => -1 }

/-- A start state with the PID-cache order `0, 8, 9` and no call recorded. -/
def st1 : St (List Int) := { caches := [0, 8, 9], trace := [] }

/-- A process filesystem with the single process 9: its executable link is
readable, its command line and its working directory are not, its environment
is. -/
def partialSys : Sys :=
  { GetEventByPid := fun _ => none
    Lstat := fun name => decide (name = lit "/proc/9/exe")
    Readlink := fun name => if name = lit "/proc/9/exe" then some (lit "/bin/sh") else none
    ReadFile := fun name => if name = lit "/proc/9/environ" then some (lit "A=1\x00") else none }

/-- A configuration text that selects the `proc` method. -/
def rawProcConfig : GoString :=
  lit "\x7b\"ProcMonitorMethod\": \"proc\"\x7d"

/-- A configuration text that is well-formed JSON and gives the monitor
method a number where the configuration type has a string. -/
def rawBadTypeConfig : GoString :=
  lit "\x7b\"ProcMonitorMethod\": 5\x7d"

/-- A configuration text that is well-formed JSON, names the `ftrace` method
and gives the default action a number where the configuration type has a
string. -/
def rawPartialConfig : GoString :=
  lit "\x7b\"ProcMonitorMethod\": \"ftrace\", \"DefaultAction\": 5\x7d"

/-- The standard library call `json.Unmarshal(rawConfig, &config)` on four
inputs, as `encoding/json` documents it: a field the input does not name
keeps its value; a value of the wrong type is skipped, the decode goes on
with the other fields, and an error is returned.
The empty object is accepted and changes nothing; `rawProcConfig` is accepted
and sets the monitor method to `proc`; `rawBadTypeConfig` is rejected and
changes nothing; `rawPartialConfig` is rejected after it has set the monitor
method to `ftrace`.  Every other input is treated as rejected without a
change; no statement below depends on that. -/
def sampleUnmarshal (raw : GoString) (cfg : Config) : Config × Bool :=
  if raw = lit "\x7b\x7d" then (cfg, true)
  else if raw = rawProcConfig then ({ cfg with ProcMonitorMethod := lit "proc" }, true)
  else if raw = rawBadTypeConfig then (cfg, false)
  else if raw = rawPartialConfig then ({ cfg with ProcMonitorMethod := lit "ftrace" }, false)
  else (cfg, false)

/-- Package variables for examples: no configuration loaded yet, the audit
method selected. -/
def globals0 : Globals :=
  { config := { DefaultAction := [], DefaultDuration := [], LogLevel := none, ProcMonitorMethod := [] }
    clientDisconnectedRule := { Action := lit "allow", Duration := lit "once" }
    clientErrorRule := { Action := lit "allow", Duration := lit "once" }
    MinLevel := 0
    MonitorMethod := MethodAudit }

/-! ## Lemmas on the audit correlation loops -/

theorem auditPidLoop_eq {κ : Type} (c : Collab κ) (inode : Int) (inodeKey expect : GoString)
    (es : List Event) (n : Nat) (tr : List Call) :
    auditPidLoop c inode inodeKey expect es n tr =
      auditLoop c inode inodeKey expect Event.Pid es n tr := by
  induction es generalizing n tr with
  | nil => rfl
  | cons e es ih =>
    simp only [auditPidLoop, auditLoop, ownsCall]
    split
    · rfl
    · exact ih _ _

theorem auditPPidLoop_eq {κ : Type} (c : Collab κ) (inode : Int) (inodeKey expect : GoString)
    (es : List Event) (n : Nat) (tr : List Call) :
    auditPPidLoop c inode inodeKey expect es n tr =
      auditLoop c inode inodeKey expect Event.PPid es n tr := by
  induction es generalizing n tr with
  | nil => rfl
  | cons e es ih =>
    simp only [auditPPidLoop, auditLoop, ownsCall]
    split
    · rfl
    · exact ih _ _

/-- When no candidate passes the matcher the loop tests every candidate, in
order, and finds nothing. -/
theorem auditLoop_none {κ : Type} (c : Collab κ) (inode : Int) (inodeKey expect : GoString)
    (sel : Event → Int) (es : List Event) (n : Nat) (tr : List Call)
    (h : ∀ x ∈ es, c.inodeFound (lit "/proc/") expect inodeKey inode (sel x) = false) :
    auditLoop c inode inodeKey expect sel es n tr =
      (none, tr ++ es.map (fun x => ownsCall inode inodeKey expect (sel x))) := by
  induction es generalizing n tr with
  | nil => simp [auditLoop]
  | cons e es ih =>
    have he := h e (List.mem_cons_self _ _)
    have ht : ∀ x ∈ es, c.inodeFound (lit "/proc/") expect inodeKey inode (sel x) = false :=
      fun x hx => h x (List.mem_cons_of_mem _ hx)
    simp [auditLoop, he, ih _ _ ht]

/-- The loop stops at the first candidate that passes the matcher, having
tested the candidates before it and no candidate after it. -/
theorem auditLoop_first {κ : Type} (c : Collab κ) (inode : Int) (inodeKey expect : GoString)
    (sel : Event → Int) (pre : List Event) (e : Event) (post : List Event) (n : Nat)
    (tr : List Call)
    (hpre : ∀ x ∈ pre, c.inodeFound (lit "/proc/") expect inodeKey inode (sel x) = false)
    (he : c.inodeFound (lit "/proc/") expect inodeKey inode (sel e) = true) :
    auditLoop c inode inodeKey expect sel (pre ++ e :: post) n tr =
      (some (sel e, ((n + pre.length : Nat) : Int)),
        tr ++ (pre ++ [e]).map (fun x => ownsCall inode inodeKey expect (sel x))) := by
  induction pre generalizing n tr with
  | nil => simp [auditLoop, he]
  | cons a pre ih =>
    have ha := hpre a (List.mem_cons_self _ _)
    have ht : ∀ x ∈ pre, c.inodeFound (lit "/proc/") expect inodeKey inode (sel x) = false :=
      fun x hx => hpre x (List.mem_cons_of_mem _ hx)
    rw [List.cons_append, auditLoop]
    simp only [ha, Bool.false_eq_true, if_false]
    rw [ih _ _ ht]
    have hn : n + 1 + pre.length = n + (a :: pre).length := by
      simp only [List.length_cons]; omega
    rw [hn]
    simp

/-- The candidate the loop returns is the one `List.find?` selects. -/
theorem auditLoop_fst {κ : Type} (c : Collab κ) (inode : Int) (inodeKey expect : GoString)
    (sel : Event → Int) (es : List Event) (n : Nat) (tr : List Call) :
    (auditLoop c inode inodeKey expect sel es n tr).1.map Prod.fst =
      (es.find? (fun x => c.inodeFound (lit "/proc/") expect inodeKey inode (sel x))).map sel := by
  induction es generalizing n tr with
  | nil => rfl
  | cons e es ih =>
    by_cases he : c.inodeFound (lit "/proc/") expect inodeKey inode (sel e) = true
    · simp [auditLoop, List.find?, he]
    · simp only [Bool.not_eq_true] at he
      simp [auditLoop, List.find?, he, ih]

/-- The loop records ownership tests only: the number of `/proc` scans in
the trace is unchanged. -/
theorem auditLoop_scans {κ : Type} (c : Collab κ) (inode : Int) (inodeKey expect : GoString)
    (sel : Event → Int) (es : List Event) (n : Nat) (tr : List Call) :
    (auditLoop c inode inodeKey expect sel es n tr).2.countP Call.isScan =
      tr.countP Call.isScan := by
  induction es generalizing n tr with
  | nil => rfl
  | cons e es ih =>
    by_cases he : c.inodeFound (lit "/proc/") expect inodeKey inode (sel e) = true
    · simp [auditLoop, he, ownsCall, Call.isScan]
    · simp only [Bool.not_eq_true] at he
      simp [auditLoop, he, ih, ownsCall, Call.isScan]

/-! ## Claims on `GetPIDFromINode` and `getPIDFromAuditEvents` -/

/-- C1: for every inode `<= 0`, every key, every monitor method and every
collaborator state, `GetPIDFromINode` returns `-1` and leaves the caches and
the trace of calls as they were: no age-out, no cache lookup, no audit
correlation, no tracer iteration, no ownership test and no `/proc` scan is
made. -/
theorem GetPIDFromINode_nonpositive {κ : Type} (c : Collab κ) (MonitorMethod : GoString)
    (inode : Int) (inodeKey : GoString) (s : St κ) (h : inode ≤ 0) :
    GetPIDFromINode c MonitorMethod inode inodeKey s = (-1, s) := by
  simp [GetPIDFromINode, h]

/-- Witness of C1 at inode `0` and at inode `-7`, under the audit and the
ftrace method. -/
theorem GetPIDFromINode_nonpositive_witness :
    GetPIDFromINode (treeCollab [mkEvent 100 1] true []) MethodAudit 0 [] st0 = (-1, st0) ∧
    GetPIDFromINode (treeCollab [] true [⟨100, [], []⟩]) MethodFtrace (-7) [] st0 = (-1, st0) :=
  ⟨GetPIDFromINode_nonpositive _ _ 0 _ _ (by decide),
   GetPIDFromINode_nonpositive _ _ (-7) _ _ (by decide)⟩

/-- C6: `getPIDFromAuditEvents` reads the event sequence and then
(1) when some event's recorded pid passes the matcher, it returns the pid and
the index of the first such event, after testing exactly the recorded pids up
to that event, in order, and no parent pid (whatever the parent pids are);
(2) when no recorded pid passes and some parent pid does, it returns the parent
pid and the index of the first event whose parent pid passes, after testing
every recorded pid in order and then the parent pids up to that event;
(3) when nothing passes it returns `(-1, -1)` after testing every recorded pid
and then every parent pid. -/
theorem getPIDFromAuditEvents_order {κ : Type} (c : Collab κ) (inode : Int)
    (inodeKey expect : GoString) (tr : List Call) :
    (∀ pre e post, c.GetEvents = pre ++ e :: post →
      (∀ x ∈ pre, c.inodeFound (lit "/proc/") expect inodeKey inode x.Pid = false) →
      c.inodeFound (lit "/proc/") expect inodeKey inode e.Pid = true →
      getPIDFromAuditEvents c inode inodeKey expect tr =
        ((e.Pid, (pre.length : Int)),
          tr ++ Call.GetEvents ::
            (pre ++ [e]).map (fun x => ownsCall inode inodeKey expect x.Pid))) ∧
    ((∀ x ∈ c.GetEvents, c.inodeFound (lit "/proc/") expect inodeKey inode x.Pid = false) →
      ∀ pre e post, c.GetEvents = pre ++ e :: post →
      (∀ x ∈ pre, c.inodeFound (lit "/proc/") expect inodeKey inode x.PPid = false) →
      c.inodeFound (lit "/proc/") expect inodeKey inode e.PPid = true →
      getPIDFromAuditEvents c inode inodeKey expect tr =
        ((e.PPid, (pre.length : Int)),
          tr ++ Call.GetEvents ::
            (c.GetEvents.map (fun x => ownsCall inode inodeKey expect x.Pid) ++
              (pre ++ [e]).map (fun x => ownsCall inode inodeKey expect x.PPid)))) ∧
    ((∀ x ∈ c.GetEvents, c.inodeFound (lit "/proc/") expect inodeKey inode x.Pid = false ∧
        c.inodeFound (lit "/proc/") expect inodeKey inode x.PPid = false) →
      getPIDFromAuditEvents c inode inodeKey expect tr =
        ((-1, -1),
          tr ++ Call.GetEvents ::
            (c.GetEvents.map (fun x => ownsCall inode inodeKey expect x.Pid) ++
              c.GetEvents.map (fun x => ownsCall inode inodeKey expect x.PPid)))) := by
  refine ⟨?_, ?_, ?_⟩
  · intro pre e post hev hpre he
    simp only [getPIDFromAuditEvents, auditPidLoop_eq, hev,
      auditLoop_first c inode inodeKey expect Event.Pid pre e post 0 _ hpre he]
    simp
  · intro hnone pre e post hev hpre he
    simp only [getPIDFromAuditEvents, auditPidLoop_eq, auditPPidLoop_eq,
      auditLoop_none c inode inodeKey expect Event.Pid _ 0 _ hnone]
    rw [hev, auditLoop_first c inode inodeKey expect Event.PPid pre e post 0 _ hpre he]
    simp
  · intro hnone
    simp only [getPIDFromAuditEvents, auditPidLoop_eq, auditPPidLoop_eq,
      auditLoop_none c inode inodeKey expect Event.Pid _ 0 _ (fun x hx => (hnone x hx).1),
      auditLoop_none c inode inodeKey expect Event.PPid _ 0 _ (fun x hx => (hnone x hx).2)]
    simp

/-- Witness of C6 on the events `(pid 3, ppid 100)`, `(pid 100, ppid 1)` with
pid 100 owning the socket: the second event's pid wins over the first event's
parent pid, and no parent pid is tested. -/
theorem getPIDFromAuditEvents_order_witness :
    getPIDFromAuditEvents (treeCollab [mkEvent 3 100, mkEvent 100 1] false []) 555 []
        (lit "socket:[555]") [] =
      ((100, 1),
        [Call.GetEvents, ownsCall 555 [] (lit "socket:[555]") 3,
          ownsCall 555 [] (lit "socket:[555]") 100]) :=
  (getPIDFromAuditEvents_order (treeCollab [mkEvent 3 100, mkEvent 100 1] false []) 555 []
      (lit "socket:[555]") []).1 [mkEvent 3 100] (mkEvent 100 1) [] rfl (by decide) (by decide)

/-! ## The backends of `GetPIDFromINode` -/

theorem getPIDFromAuditEvents_fst {κ : Type} (c : Collab κ) (inode : Int) (inodeKey : GoString)
    (tr : List Call) :
    (getPIDFromAuditEvents c inode inodeKey (socketLabel inode) tr).1.1 =
      auditPid c inode inodeKey := by
  have h1 := auditLoop_fst c inode inodeKey (socketLabel inode) Event.Pid c.GetEvents 0
    (tr ++ [Call.GetEvents])
  simp only [getPIDFromAuditEvents, auditPidLoop_eq, auditPPidLoop_eq, auditPid, owns]
  rcases hr1 : auditLoop c inode inodeKey (socketLabel inode) Event.Pid c.GetEvents 0
    (tr ++ [Call.GetEvents]) with ⟨o1, tr1⟩
  rw [hr1] at h1
  have h2 := auditLoop_fst c inode inodeKey (socketLabel inode) Event.PPid c.GetEvents 0 tr1
  cases o1 with
  | some r =>
    cases hf : c.GetEvents.find?
        (fun x => c.inodeFound (lit "/proc/") (socketLabel inode) inodeKey inode x.Pid) with
    | none => rw [hf] at h1; simp at h1
    | some e => rw [hf] at h1; simp at h1; simp [h1]
  | none =>
    cases hf : c.GetEvents.find?
        (fun x => c.inodeFound (lit "/proc/") (socketLabel inode) inodeKey inode x.Pid) with
    | some e => rw [hf] at h1; simp at h1
    | none =>
      simp only []
      rcases hr2 : auditLoop c inode inodeKey (socketLabel inode) Event.PPid c.GetEvents 0 tr1
        with ⟨o2, tr2⟩
      rw [hr2] at h2
      cases o2 with
      | some r =>
        cases hg : c.GetEvents.find?
            (fun x => c.inodeFound (lit "/proc/") (socketLabel inode) inodeKey inode x.PPid) with
        | none => rw [hg] at h2; simp at h2
        | some e => rw [hg] at h2; simp at h2; simp [h2]
      | none =>
        cases hg : c.GetEvents.find?
            (fun x => c.inodeFound (lit "/proc/") (socketLabel inode) inodeKey inode x.PPid) with
        | some e => rw [hg] at h2; simp at h2
        | none => simp

theorem getPIDFromAuditEvents_scans {κ : Type} (c : Collab κ) (inode : Int)
    (inodeKey expect : GoString) (tr : List Call) :
    (getPIDFromAuditEvents c inode inodeKey expect tr).2.countP Call.isScan =
      tr.countP Call.isScan := by
  have h1 := auditLoop_scans c inode inodeKey expect Event.Pid c.GetEvents 0
    (tr ++ [Call.GetEvents])
  simp only [getPIDFromAuditEvents, auditPidLoop_eq, auditPPidLoop_eq]
  rcases hr1 : auditLoop c inode inodeKey expect Event.Pid c.GetEvents 0
    (tr ++ [Call.GetEvents]) with ⟨o1, tr1⟩
  rw [hr1] at h1
  have h2 := auditLoop_scans c inode inodeKey expect Event.PPid c.GetEvents 0 tr1
  have h0 : (tr ++ [Call.GetEvents]).countP Call.isScan = tr.countP Call.isScan := by
    simp [Call.isScan]
  cases o1 with
  | some r => simpa [h0] using h1
  | none =>
    simp only []
    rcases hr2 : auditLoop c inode inodeKey expect Event.PPid c.GetEvents 0 tr1 with ⟨o2, tr2⟩
    rw [hr2] at h2
    simp only [] at h1 h2
    cases o2 <;> simp [h2, h1, h0]

/-- The tracer iteration leaves in `found` the pid of the first live process
that passes the matcher, or the initial value when none does, and records no
`/proc` scan. -/
theorem forEachProcess_tracer {κ : Type} (c : Collab κ) (inode : Int)
    (inodeKey expect : GoString) (ps : List LiveProc) (f0 : Int) (tr : List Call) :
    (forEachProcess (tracerVisitor c inode inodeKey expect) ps (f0, tr)).1 =
        (match ps.find? (fun p => c.inodeFound (lit "/proc/") expect inodeKey inode p.pid) with
          | some p => p.pid
          | none => f0) ∧
    (forEachProcess (tracerVisitor c inode inodeKey expect) ps (f0, tr)).2.countP Call.isScan =
        tr.countP Call.isScan := by
  induction ps generalizing tr with
  | nil => exact ⟨rfl, rfl⟩
  | cons p ps ih =>
    by_cases hp : c.inodeFound (lit "/proc/") expect inodeKey inode p.pid = true
    · simp [forEachProcess, tracerVisitor, hp, List.find?, Call.isScan]
    · simp only [Bool.not_eq_true] at hp
      have := ih (tr ++ [Call.inodeFound (lit "/proc/") expect inodeKey inode p.pid])
      simp only [forEachProcess, tracerVisitor, hp, List.find?, Bool.false_eq_true, if_false]
      refine ⟨this.1, ?_⟩
      rw [this.2]
      simp [Call.isScan]

/-- The backend's PID, when it is not `-1`, passes the ownership matcher. -/
theorem backendPid_owns {κ : Type} (c : Collab κ) (MonitorMethod : GoString) (inode : Int)
    (inodeKey : GoString) (h : backendPid c MonitorMethod inode inodeKey ≠ -1) :
    owns c inode inodeKey (backendPid c MonitorMethod inode inodeKey) = true := by
  unfold backendPid at h ⊢
  by_cases hA : MonitorMethod = MethodAudit
  · simp only [hA, if_true, auditPid] at h ⊢
    cases hf : c.GetEvents.find? (fun e => owns c inode inodeKey e.Pid) with
    | some e => simpa using List.find?_some hf
    | none =>
      rw [hf] at h
      simp only [] at h ⊢
      cases hg : c.GetEvents.find? (fun e => owns c inode inodeKey e.PPid) with
      | some e => simpa using List.find?_some hg
      | none => rw [hg] at h; simp at h
  · by_cases hF : MonitorMethod = MethodFtrace ∧ c.IsWatcherAvailable = true
    · obtain ⟨hF1, hw⟩ := hF
      subst hF1
      have hFA : MethodFtrace ≠ MethodAudit := by decide
      simp only [hFA, hw, if_false, if_true, and_self, tracerPid] at h ⊢
      cases hf : c.liveProcs.find? (fun p => owns c inode inodeKey p.pid) with
      | some e => simpa using List.find?_some hf
      | none => rw [hf] at h; simp at h
    · simp only [hA, hF, if_false] at h
      exact absurd rfl h

/-- What `GetPIDFromINode` does when the inode is positive and both caches
miss: it returns the scan's result, the scan being the last call of the
trace, when the backend's PID is `-1` or the method is `proc`; else it
returns the backend's PID.  The calls before the scan hold no scan. -/
theorem GetPIDFromINode_miss {κ : Type} (c : Collab κ) (MonitorMethod : GoString) (inode : Int)
    (inodeKey : GoString) (s : St κ) (hpos : 0 < inode)
    (hmiss : cachesMiss c inode inodeKey s.caches) :
    ∃ k tr, tr.countP Call.isScan = s.trace.countP Call.isScan ∧
      GetPIDFromINode c MonitorMethod inode inodeKey s =
        if backendPid c MonitorMethod inode inodeKey = -1 ∨ MonitorMethod = MethodProc then
          (c.lookupPidInProc (lit "/proc/") (socketLabel inode) inodeKey inode,
            { caches := k,
              trace := tr ++ [Call.lookupPidInProc (lit "/proc/") (socketLabel inode) inodeKey inode] })
        else
          (backendPid c MonitorMethod inode inodeKey, { caches := k, trace := tr }) := by
  obtain ⟨h1, h2⟩ := hmiss
  simp only [afterInodeLookup] at h2
  have hn : ¬ inode ≤ 0 := by omega
  have hAP : MethodAudit ≠ MethodProc := by decide
  have hFP : MethodFtrace ≠ MethodProc := by decide
  refine ⟨(c.getPidFromCache inode inodeKey (socketLabel inode)
    (c.getPidByInodeFromCache inodeKey (c.cleanUpCaches s.caches)).2).2, ?_⟩
  simp only [GetPIDFromINode, hn, if_false, h1, h2, ne_eq, not_true_eq_false]
  generalize htr3 : s.trace ++ [Call.cleanUpCaches] ++ [Call.getPidByInodeFromCache inodeKey] ++
        [Call.getPidFromCache inode inodeKey (socketLabel inode)] = tr3
  have h3 : tr3.countP Call.isScan = s.trace.countP Call.isScan := by
    rw [← htr3]; simp [Call.isScan]
  by_cases hA : MonitorMethod = MethodAudit
  · subst hA
    have hf := getPIDFromAuditEvents_fst c inode inodeKey tr3
    have hs := getPIDFromAuditEvents_scans c inode inodeKey (socketLabel inode) tr3
    refine ⟨(getPIDFromAuditEvents c inode inodeKey (socketLabel inode) tr3).2, ?_, ?_⟩
    · rw [hs, h3]
    · simp only [if_true, backendPid, hf]
      by_cases hb : auditPid c inode inodeKey = -1
      · simp [hb, lookupTail]
      · simp [hb, hAP]
  · by_cases hF : MonitorMethod = MethodFtrace
    · subst hF
      have hFA : MethodFtrace ≠ MethodAudit := by decide
      by_cases hw : c.IsWatcherAvailable = true
      · have ht := forEachProcess_tracer c inode inodeKey (socketLabel inode) c.liveProcs (-1)
          (tr3 ++ [Call.IsWatcherAvailable] ++ [Call.forEachProcess])
        refine ⟨(forEachProcess (tracerVisitor c inode inodeKey (socketLabel inode)) c.liveProcs
          (-1, tr3 ++ [Call.IsWatcherAvailable] ++ [Call.forEachProcess])).2, ?_, ?_⟩
        · rw [ht.2, ← h3]; simp [Call.isScan]
        · simp only [hFA, if_false, if_true, hw, backendPid, and_self, lookupTail, ht.1,
            tracerPid, owns, hFP, or_false]
      · simp only [Bool.not_eq_true] at hw
        refine ⟨tr3 ++ [Call.IsWatcherAvailable], ?_, ?_⟩
        · rw [← h3]; simp [Call.isScan]
        · simp [hFA, hw, backendPid, lookupTail]
    · refine ⟨tr3, h3, ?_⟩
      simp [hA, hF, backendPid, lookupTail]

/-- C4: for every inode `> 0` on which both caches miss, when the ownership
matcher is true for the pid `p` and false for every other pid and the `/proc`
scan returns `p`, `GetPIDFromINode` returns `p` whatever the monitor method,
the audit event sequence, the watcher's availability and the list of live
processes are. -/
theorem GetPIDFromINode_backend_agnostic {κ : Type} (c : Collab κ) (MonitorMethod : GoString)
    (inode : Int) (inodeKey : GoString) (s : St κ) (p : Int) (hpos : 0 < inode)
    (hmiss : cachesMiss c inode inodeKey s.caches)
    (howns : ∀ pid, owns c inode inodeKey pid = true ↔ pid = p)
    (hscan : c.lookupPidInProc (lit "/proc/") (socketLabel inode) inodeKey inode = p) :
    (GetPIDFromINode c MonitorMethod inode inodeKey s).1 = p := by
  obtain ⟨k, tr, -, h⟩ := GetPIDFromINode_miss c MonitorMethod inode inodeKey s hpos hmiss
  rw [h]
  split
  · exact hscan
  · rename_i hc
    have hb : backendPid c MonitorMethod inode inodeKey ≠ -1 := fun hb => hc (Or.inl hb)
    exact (howns _).1 (backendPid_owns c MonitorMethod inode inodeKey hb)

/-- In the synthetic process tree the matcher is true for pid 100 only. -/
theorem treeCollab_owns (events : List Event) (watcher : Bool) (procs : List LiveProc)
    (inodeKey : GoString) (pid : Int) :
    owns (treeCollab events watcher procs) 555 inodeKey pid = true ↔ pid = 100 := by
  have hl : socketLabel 555 = lit "socket:[555]" := by decide
  simp [owns, treeCollab, hl]

/-- In the synthetic process tree both caches miss. -/
theorem treeCollab_miss (events : List Event) (watcher : Bool) (procs : List LiveProc)
    (inode : Int) (inodeKey : GoString) (k : Unit) :
    cachesMiss (treeCollab events watcher procs) inode inodeKey k :=
  ⟨rfl, rfl⟩

/-- Witness of C4 on the synthetic process tree of the spec: inode 555 resolves
to pid 100 under the audit method (with an event sequence that does not
mention pid 100), under the ftrace method with and without the watcher, and
under the proc method. -/
theorem GetPIDFromINode_backend_agnostic_witness :
    (GetPIDFromINode (treeCollab [mkEvent 3 4] false []) MethodAudit 555 [] st0).1 = 100 ∧
    (GetPIDFromINode (treeCollab [] true [⟨7, [], []⟩, ⟨100, [], []⟩]) MethodFtrace 555 [] st0).1
      = 100 ∧
    (GetPIDFromINode (treeCollab [] false [⟨100, [], []⟩]) MethodFtrace 555 [] st0).1 = 100 ∧
    (GetPIDFromINode (treeCollab [] false []) MethodProc 555 [] st0).1 = 100 :=
  ⟨GetPIDFromINode_backend_agnostic _ _ 555 [] st0 100 (by decide)
      (treeCollab_miss _ _ _ _ _ _) (treeCollab_owns _ _ _ _) (by decide),
   GetPIDFromINode_backend_agnostic _ _ 555 [] st0 100 (by decide)
      (treeCollab_miss _ _ _ _ _ _) (treeCollab_owns _ _ _ _) (by decide),
   GetPIDFromINode_backend_agnostic _ _ 555 [] st0 100 (by decide)
      (treeCollab_miss _ _ _ _ _ _) (treeCollab_owns _ _ _ _) (by decide),
   GetPIDFromINode_backend_agnostic _ _ 555 [] st0 100 (by decide)
      (treeCollab_miss _ _ _ _ _ _) (treeCollab_owns _ _ _ _) (by decide)⟩

/-- A search for the first element whose pid passes a test that `-1` fails
answers `-1` exactly when no element passes. -/
theorem find_pid_eq_neg_one {α : Type} (l : List α) (f : α → Int) (P : Int → Bool)
    (hP : P (-1) = false) :
    (match l.find? (fun x => P (f x)) with
      | some x => f x
      | none => -1) = -1 ↔ ∀ x ∈ l, P (f x) = false := by
  cases hf : l.find? (fun x => P (f x)) with
  | none =>
    simp only [true_iff]
    intro x hx
    have := List.find?_eq_none.1 hf x hx
    simpa using this
  | some e =>
    have he : P (f e) = true := by simpa using List.find?_some hf
    have hm : e ∈ l := List.mem_of_find?_eq_some hf
    constructor
    · intro h
      simp only [] at h
      rw [h, hP] at he
      exact absurd he (by decide)
    · intro h
      rw [h e hm] at he
      exact absurd he (by decide)

/-- When the matcher is false for `-1`, the backend produces no PID exactly
when the audit correlation finds no match, or the method is ftrace and the
watcher is unavailable or its iteration matches nothing, or the method is
neither audit nor ftrace. -/
theorem backendPid_eq_neg_one {κ : Type} (c : Collab κ) (MonitorMethod : GoString) (inode : Int)
    (inodeKey : GoString) (hneg : owns c inode inodeKey (-1) = false) :
    backendPid c MonitorMethod inode inodeKey = -1 ↔
      ((MonitorMethod = MethodAudit ∧
          ∀ e ∈ c.GetEvents, owns c inode inodeKey e.Pid = false ∧
            owns c inode inodeKey e.PPid = false) ∨
        (MonitorMethod = MethodFtrace ∧
          (c.IsWatcherAvailable = false ∨ ∀ p ∈ c.liveProcs, owns c inode inodeKey p.pid = false)) ∨
        (MonitorMethod ≠ MethodAudit ∧ MonitorMethod ≠ MethodFtrace)) := by
  have hFA : MethodFtrace ≠ MethodAudit := by decide
  have hPid := find_pid_eq_neg_one c.GetEvents Event.Pid (owns c inode inodeKey) hneg
  have hPPid := find_pid_eq_neg_one c.GetEvents Event.PPid (owns c inode inodeKey) hneg
  have hLive := find_pid_eq_neg_one c.liveProcs LiveProc.pid (owns c inode inodeKey) hneg
  unfold backendPid
  by_cases hA : MonitorMethod = MethodAudit
  · subst hA
    have hAF : MethodAudit ≠ MethodFtrace := fun h => hFA h.symm
    simp only [if_true, true_and, hAF, false_and, ne_eq, not_true_eq_false, or_false]
    unfold auditPid
    cases hf : c.GetEvents.find? (fun e => owns c inode inodeKey e.Pid) with
    | some e =>
      rw [hf] at hPid
      simp only [] at hPid ⊢
      rw [hPid]
      constructor
      · intro h
        have he : owns c inode inodeKey e.Pid = true := by simpa using List.find?_some hf
        rw [h e (List.mem_of_find?_eq_some hf)] at he
        exact absurd he (by decide)
      · intro h x hx
        exact (h x hx).1
    | none =>
      rw [hf] at hPid
      simp only [true_iff] at hPid
      simp only []
      cases hg : c.GetEvents.find? (fun e => owns c inode inodeKey e.PPid) <;>
        rw [hg] at hPPid <;> simp only [] at hPPid ⊢ <;>
        exact hPPid.trans ⟨fun h x hx => ⟨hPid x hx, h x hx⟩, fun h x hx => (h x hx).2⟩
  · by_cases hF : MonitorMethod = MethodFtrace
    · subst hF
      by_cases hw : c.IsWatcherAvailable = true
      · simp only [hFA, if_false, hw, and_self, if_true, false_and, true_and, ne_eq,
          not_true_eq_false, and_false, or_false, false_or, Bool.true_eq_false]
        unfold tracerPid
        cases hg : c.liveProcs.find? (fun p => owns c inode inodeKey p.pid) <;>
          rw [hg] at hLive <;> simp only [] at hLive ⊢ <;> exact hLive
      · simp only [Bool.not_eq_true] at hw
        simp [hFA, hw]
    · simp [hA, hF]

/-- C5: for every inode `> 0` on which both caches miss,
(1) when the configured backend produces no PID (`backendPid` is `-1`) or the
method is `proc`, `GetPIDFromINode` runs the `/proc` scan once, as its last
call, and returns the scan's result;
(2) otherwise it returns the backend's PID and runs no scan;
(3) when the matcher is false for `-1`, the backend produces no PID exactly
when the audit correlation finds no match, or the method is ftrace and the
watcher is unavailable or its iteration matches nothing, or the method is
neither audit nor ftrace. -/
theorem GetPIDFromINode_fallback_rule {κ : Type} (c : Collab κ) (MonitorMethod : GoString)
    (inode : Int) (inodeKey : GoString) (s : St κ) (hpos : 0 < inode)
    (hmiss : cachesMiss c inode inodeKey s.caches) :
    ((backendPid c MonitorMethod inode inodeKey = -1 ∨ MonitorMethod = MethodProc) →
      (GetPIDFromINode c MonitorMethod inode inodeKey s).1 =
        c.lookupPidInProc (lit "/proc/") (socketLabel inode) inodeKey inode ∧
      (GetPIDFromINode c MonitorMethod inode inodeKey s).2.trace.countP Call.isScan =
        s.trace.countP Call.isScan + 1 ∧
      (GetPIDFromINode c MonitorMethod inode inodeKey s).2.trace.getLast? =
        some (Call.lookupPidInProc (lit "/proc/") (socketLabel inode) inodeKey inode)) ∧
    (¬ (backendPid c MonitorMethod inode inodeKey = -1 ∨ MonitorMethod = MethodProc) →
      (GetPIDFromINode c MonitorMethod inode inodeKey s).1 =
        backendPid c MonitorMethod inode inodeKey ∧
      (GetPIDFromINode c MonitorMethod inode inodeKey s).2.trace.countP Call.isScan =
        s.trace.countP Call.isScan) ∧
    (owns c inode inodeKey (-1) = false →
      (backendPid c MonitorMethod inode inodeKey = -1 ↔
        ((MonitorMethod = MethodAudit ∧
            ∀ e ∈ c.GetEvents, owns c inode inodeKey e.Pid = false ∧
              owns c inode inodeKey e.PPid = false) ∨
          (MonitorMethod = MethodFtrace ∧
            (c.IsWatcherAvailable = false ∨
              ∀ p ∈ c.liveProcs, owns c inode inodeKey p.pid = false)) ∨
          (MonitorMethod ≠ MethodAudit ∧ MonitorMethod ≠ MethodFtrace)))) := by
  obtain ⟨k, tr, htr, h⟩ := GetPIDFromINode_miss c MonitorMethod inode inodeKey s hpos hmiss
  refine ⟨?_, ?_, backendPid_eq_neg_one c MonitorMethod inode inodeKey⟩
  · intro hc
    rw [h, if_pos hc]
    simp [htr, Call.isScan]
  · intro hc
    rw [h, if_neg hc]
    exact ⟨rfl, htr⟩

/-- Witness of C5 on the synthetic process tree, inode 555.  Under the audit
method with the event `(pid 100, ppid 1)` the backend produces pid 100 and no
scan is run; under the ftrace method with an unavailable watcher the scan is
run once and its result, 100, is returned. -/
theorem GetPIDFromINode_fallback_rule_witness :
    ((GetPIDFromINode (treeCollab [mkEvent 100 1] false []) MethodAudit 555 [] st0).1 = 100 ∧
      (GetPIDFromINode (treeCollab [mkEvent 100 1] false []) MethodAudit 555 [] st0).2.trace.countP
        Call.isScan = 0) ∧
    ((GetPIDFromINode (treeCollab [] false [⟨100, [], []⟩]) MethodFtrace 555 [] st0).1 = 100 ∧
      (GetPIDFromINode (treeCollab [] false [⟨100, [], []⟩]) MethodFtrace 555 [] st0).2.trace.countP
        Call.isScan = 1) :=
  ⟨(GetPIDFromINode_fallback_rule (treeCollab [mkEvent 100 1] false []) MethodAudit 555 [] st0
      (by decide) (treeCollab_miss _ _ _ _ _ _)).2.1 (by decide),
   ((GetPIDFromINode_fallback_rule (treeCollab [] false [⟨100, [], []⟩]) MethodFtrace 555 [] st0
      (by decide) (treeCollab_miss _ _ _ _ _ _)).1 (by decide)).1,
   ((GetPIDFromINode_fallback_rule (treeCollab [] false [⟨100, [], []⟩]) MethodFtrace 555 [] st0
      (by decide) (treeCollab_miss _ _ _ _ _ _)).1 (by decide)).2.1⟩

/-! ## Lemmas on the string helpers -/

theorem Split_eq_splitOnP (s : GoString) (sep : Nat) :
    Split s sep = s.splitOnP (fun b => b == sep) := by
  induction s with
  | nil => rfl
  | cons b bs ih =>
    rw [Split, List.splitOnP_cons, ih]
    by_cases hb : b = sep
    · simp [hb]
    · have hne := List.splitOnP_ne_nil (fun b => b == sep) bs
      cases hs : List.splitOnP (fun b => b == sep) bs with
      | nil => exact absurd hs hne
      | cons w ws => simp [hb, List.modifyHead]

theorem Split_Replace_eq_splitOnP (s : GoString) :
    Split (Replace s 0 32) 32 = s.splitOnP (fun b => b == 0 || b == 32) := by
  induction s with
  | nil => rfl
  | cons b bs ih =>
    have hr : Replace (b :: bs) 0 32 = (if b = 0 then 32 else b) :: Replace bs 0 32 := rfl
    rw [hr, Split, List.splitOnP_cons, ih]
    have hne := List.splitOnP_ne_nil (fun b => b == 0 || b == 32) bs
    by_cases h0 : b = 0
    · simp [h0]
    · by_cases h32 : b = 32
      · simp [h32]
      · cases hs : List.splitOnP (fun b => b == 0 || b == 32) bs with
        | nil => exact absurd hs hne
        | cons w ws => simp [h0, h32, List.modifyHead]

theorem splitOnP_congr {α : Type} (p q : α → Bool) (l : List α) (h : ∀ x ∈ l, p x = q x) :
    l.splitOnP p = l.splitOnP q := by
  induction l with
  | nil => rfl
  | cons a l ih =>
    rw [List.splitOnP_cons, List.splitOnP_cons, h a (List.mem_cons_self _ _),
      ih (fun x hx => h x (List.mem_cons_of_mem _ hx))]

theorem mem_of_mem_splitOnP {α : Type} (p : α → Bool) (l : List α) :
    ∀ w ∈ l.splitOnP p, ∀ x ∈ w, x ∈ l := by
  induction l with
  | nil => intro w hw x hx; simp [List.splitOnP_nil] at hw; subst hw; exact hx
  | cons a l ih =>
    intro w hw x hx
    rw [List.splitOnP_cons] at hw
    by_cases ha : p a = true
    · simp only [ha, if_true, List.mem_cons] at hw
      rcases hw with hw | hw
      · subst hw; simp at hx
      · exact List.mem_cons_of_mem _ (ih w hw x hx)
    · simp only [ha, Bool.false_eq_true, if_false] at hw
      cases hs : List.splitOnP p l with
      | nil => rw [hs] at hw; simp [List.modifyHead] at hw
      | cons v vs =>
        rw [hs] at hw ih
        simp only [List.modifyHead, List.mem_cons] at hw
        rcases hw with hw | hw
        · subst hw
          rcases List.mem_cons.1 hx with hx | hx
          · subst hx; exact List.mem_cons_self _ _
          · exact List.mem_cons_of_mem _ (ih v (List.mem_cons_self _ _) x hx)
        · exact List.mem_cons_of_mem _ (ih w (List.mem_cons_of_mem _ hw) x hx)

theorem dropWhile_append_cons {α : Type} (p : α → Bool) (a : List α) (x : α) (b : List α)
    (hx : p x = false) : (a ++ x :: b).dropWhile p = a.dropWhile p ++ x :: b := by
  induction a with
  | nil => simp [List.dropWhile, hx]
  | cons y a ih =>
    by_cases hy : p y = true
    · simp [List.dropWhile, hy, ih]
    · simp [List.dropWhile, hy]

theorem rdropWhile_append_cons {α : Type} (p : α → Bool) (a : List α) (x : α) (b : List α)
    (hx : p x = false) : (a ++ x :: b).rdropWhile p = a ++ x :: b.rdropWhile p := by
  simp only [List.rdropWhile, List.reverse_append, List.reverse_cons, List.append_assoc,
    List.singleton_append]
  rw [dropWhile_append_cons p _ x _ hx]
  simp

theorem head_dropWhile_false {α : Type} (p : α → Bool) (l : List α) (x : α) (b : List α)
    (h : l.dropWhile p = x :: b) : p x = false := by
  induction l with
  | nil => simp at h
  | cons y l ih =>
    by_cases hy : p y = true
    · simp only [List.dropWhile, hy] at h
      exact ih h
    · simp only [Bool.not_eq_true] at hy
      simp only [List.dropWhile, hy] at h
      have := (List.cons.inj h).1
      rw [← this]; exact hy

theorem dropWhile_eq_self_of_all_false {α : Type} (p : α → Bool) (v : List α)
    (h : ∀ x ∈ v, p x = false) : v.dropWhile p = v := by
  cases v with
  | nil => rfl
  | cons a v => simp [List.dropWhile, h a (List.mem_cons_self _ _)]

theorem dropWhile_rdropWhile_comm {α : Type} (p : α → Bool) (l : List α) :
    (l.rdropWhile p).dropWhile p = (l.dropWhile p).rdropWhile p := by
  by_cases hall : ∀ x ∈ l, p x = true
  · rw [List.rdropWhile_eq_nil_iff.2 hall, List.dropWhile_eq_nil_iff.2 hall]
    simp
  · have hsplit := List.takeWhile_append_dropWhile p l
    have hne : l.dropWhile p ≠ [] := fun h => hall (List.dropWhile_eq_nil_iff.1 h)
    cases hd : l.dropWhile p with
    | nil => exact absurd hd hne
    | cons x b =>
      have hx : p x = false := head_dropWhile_false p l x b hd
      rw [hd] at hsplit
      have ht : (l.takeWhile p).dropWhile p = [] :=
        List.dropWhile_eq_nil_iff.2 (fun y hy => List.mem_takeWhile_imp hy)
      have h2 := rdropWhile_append_cons p [] x b hx
      simp only [List.nil_append] at h2
      rw [h2]
      conv_lhs => rw [← hsplit]
      rw [rdropWhile_append_cons p _ x b hx, dropWhile_append_cons p _ x _ hx, ht]
      simp

theorem Trim_eq_self (w : GoString) (h : ∀ x ∈ w, isTrimByte x = false) : Trim w = w := by
  unfold Trim
  rw [dropWhile_eq_self_of_all_false isTrimByte w h, List.rdropWhile,
    dropWhile_eq_self_of_all_false isTrimByte w.reverse (fun x hx => h x (List.mem_reverse.1 hx)),
    List.reverse_reverse]

theorem cutFirst_eq (t : GoString) (sep : Nat) :
    cutFirst t sep =
      if sep ∈ t then
        some (t.takeWhile (fun b => b != sep), (t.dropWhile (fun b => b != sep)).drop 1)
      else none := by
  induction t with
  | nil => rfl
  | cons b bs ih =>
    rw [cutFirst, ih]
    by_cases hb : b = sep
    · simp [hb, List.takeWhile, List.dropWhile]
    · have hb2 : ¬ sep = b := fun h => hb h.symm
      have hb3 : (b != sep) = true := by simpa using hb
      by_cases hm : sep ∈ bs
      · simp [hb, hb2, hb3, hm, List.takeWhile, List.dropWhile]
      · simp [hb, hb2, hm]


theorem takeWhile_append_cons {α : Type} (p : α → Bool) (a : List α) (x : α) (b : List α)
    (ha : ∀ y ∈ a, p y = true) (hx : p x = false) :
    (a ++ x :: b).takeWhile p = a ∧ (a ++ x :: b).dropWhile p = x :: b := by
  induction a with
  | nil => simp [List.takeWhile, List.dropWhile, hx]
  | cons y a ih =>
    have hy := ha y (List.mem_cons_self _ _)
    have := ih (fun z hz => ha z (List.mem_cons_of_mem _ hz))
    simp [List.takeWhile, List.dropWhile, hy, this.1, this.2]

/-- A string that contains `sep` splits at its first occurrence. -/
theorem exists_first_split (s : GoString) (sep : Nat) (h : sep ∈ s) :
    ∃ a b, s = a ++ sep :: b ∧ (∀ y ∈ a, (y != sep) = true) := by
  have hsplit := List.takeWhile_append_dropWhile (fun b => b != sep) s
  cases hd : s.dropWhile (fun b => b != sep) with
  | nil =>
    have := List.dropWhile_eq_nil_iff.1 hd sep h
    simp at this
  | cons x b =>
    have hx := head_dropWhile_false (fun b => b != sep) s x b hd
    have hxs : x = sep := by simpa using hx
    subst hxs
    rw [hd] at hsplit
    exact ⟨_, b, hsplit.symm, fun y hy => List.mem_takeWhile_imp (p := fun b => b != x) hy⟩

theorem Trim_mem (s : GoString) (x : Nat) (h : x ∈ Trim s) : x ∈ s :=
  (List.dropWhile_sublist _).subset ((List.rdropWhile_prefix _ _).sublist.subset h)

theorem parseEnvEntry_eq (env : EnvMap) (s : GoString) :
    parseEnvEntry env s = if 61 ∈ s then env.set (envKey s) (envVal s) else env := by
  unfold parseEnvEntry SplitN2
  rw [cutFirst_eq]
  by_cases hm : 61 ∈ s
  · obtain ⟨a, b, hs, ha⟩ := exists_first_split s 61 hm
    have h61 : isTrimByte 61 = false := by decide
    have hT : Trim s = a.dropWhile isTrimByte ++ 61 :: b.rdropWhile isTrimByte := by
      unfold Trim
      rw [hs, dropWhile_append_cons _ _ _ _ h61, rdropWhile_append_cons _ _ _ _ h61]
    have ha2 : ∀ y ∈ a.dropWhile isTrimByte, (y != 61) = true :=
      fun y hy => ha y ((List.dropWhile_sublist _).subset hy)
    have hne : ((61 : Nat) != 61) = false := by decide
    have hk := takeWhile_append_cons (fun b => b != 61) _ 61 (b.rdropWhile isTrimByte) ha2 hne
    have hk0 := takeWhile_append_cons (fun b => b != 61) a 61 b ha hne
    have hmT : 61 ∈ Trim s := by rw [hT]; simp
    have hkey : Trim (a.dropWhile isTrimByte) = Trim a := by
      unfold Trim; rw [List.dropWhile_idempotent]
    have hval : Trim (b.rdropWhile isTrimByte) = Trim b := by
      unfold Trim
      rw [dropWhile_rdropWhile_comm, List.rdropWhile_idempotent]
    simp only [hmT, hm, if_true, envKey, envVal]
    rw [hT, hk.1, hk.2]
    conv_rhs => rw [hs, hk0.1, hk0.2]
    simp only [List.drop_one, List.tail_cons, hkey, hval]
  · have hmT : ¬ 61 ∈ Trim s := fun h => hm (Trim_mem s 61 h)
    simp only [hmT, hm, if_false]

theorem foldl_parseEnvEntry (entries : List GoString) (env : EnvMap) (k : GoString) :
    (entries.foldl parseEnvEntry env) k = envLookup entries env k := by
  induction entries generalizing env with
  | nil => rfl
  | cons s ss ih =>
    rw [List.foldl_cons, ih]
    unfold envLookup
    rw [List.filter_cons]
    cases hF : ss.filter (fun s => decide (61 ∈ s) && decide (envKey s = k)) with
    | cons t ts =>
      have hl : (t :: ts).getLast? = some ((t :: ts).getLast (List.cons_ne_nil _ _)) :=
        List.getLast?_eq_getLast _ _
      by_cases hc : (decide (61 ∈ s) && decide (envKey s = k)) = true
      · simp only [hc, if_true, List.getLast?_cons_cons, hl]
      · simp only [hc, if_false, Bool.false_eq_true, hl]
    | nil =>
      rw [parseEnvEntry_eq]
      by_cases hm : 61 ∈ s
      · by_cases hk : envKey s = k
        · simp [hm, hk, EnvMap.set]
        · have hk2 : ¬ k = envKey s := fun h => hk h.symm
          simp [hm, hk, hk2, EnvMap.set]
      · simp [hm]

/-! ## Lemmas on `FindProcess` and its helpers -/

theorem parseEnv_fields (sys : Sys) (proc : Process) (log : List SysCall) :
    (parseEnv sys proc log).1.ID = proc.ID ∧ (parseEnv sys proc log).1.Path = proc.Path ∧
    (parseEnv sys proc log).1.Args = proc.Args ∧ (parseEnv sys proc log).1.CWD = proc.CWD := by
  simp only [parseEnv]
  split <;> exact ⟨rfl, rfl, rfl, rfl⟩

theorem parseCWD_fields (sys : Sys) (proc : Process) (log : List SysCall) :
    (parseCWD sys proc log).1.ID = proc.ID ∧ (parseCWD sys proc log).1.Path = proc.Path ∧
    (parseCWD sys proc log).1.Args = proc.Args ∧ (parseCWD sys proc log).1.Env = proc.Env := by
  simp only [parseCWD]
  split <;> exact ⟨rfl, rfl, rfl, rfl⟩

theorem parseCmdLine_fields (sys : Sys) (proc : Process) (log : List SysCall) :
    (parseCmdLine sys proc log).1.ID = proc.ID ∧ (parseCmdLine sys proc log).1.Path = proc.Path ∧
    (parseCmdLine sys proc log).1.CWD = proc.CWD ∧ (parseCmdLine sys proc log).1.Env = proc.Env := by
  simp only [parseCmdLine]
  split <;> exact ⟨rfl, rfl, rfl, rfl⟩

theorem cleanPath_fields (proc : Process) :
    (cleanPath proc).ID = proc.ID ∧ (cleanPath proc).Args = proc.Args ∧
    (cleanPath proc).CWD = proc.CWD ∧ (cleanPath proc).Env = proc.Env := by
  simp only [cleanPath]
  split <;> exact ⟨rfl, rfl, rfl, rfl⟩

/-- The test of `cleanPath` holds exactly when the path ends with the
marker. -/
theorem cleanPath_eq (proc : Process) :
    cleanPath proc =
      if deletedMarker <:+ proc.Path then
        { proc with Path := proc.Path.take (proc.Path.length - 10) }
      else proc := by
  have hlen : deletedMarker.length = 10 := by decide
  have hiff : (proc.Path.length ≥ 10 ∧ proc.Path.drop (proc.Path.length - 10) = lit " (deleted)") ↔
      deletedMarker <:+ proc.Path := by
    rw [List.suffix_iff_eq_drop, hlen]
    constructor
    · intro h; exact h.2.symm
    · intro h
      refine ⟨?_, h.symm⟩
      have := congrArg List.length h
      rw [hlen, List.length_drop] at this
      omega
  unfold cleanPath
  by_cases h : deletedMarker <:+ proc.Path
  · simp only [hiff.2 h, h, and_self, if_true]
  · have h2 : ¬ (proc.Path.length ≥ 10 ∧
        proc.Path.drop (proc.Path.length - 10) = lit " (deleted)") := fun hc => h (hiff.1 hc)
    simp only [h2, h, if_false]

/-- The path `cleanPath` leaves depends on the path it is given only. -/
theorem cleanPath_Path_congr (p q : Process) (h : p.Path = q.Path) :
    (cleanPath p).Path = (cleanPath q).Path := by
  by_cases c : deletedMarker <:+ q.Path
  · simp [cleanPath_eq, h, c]
  · simp [cleanPath_eq, h, c]

/-- Removing one trailing marker from `p ++ marker` gives `p`. -/
theorem take_marker (p : GoString) :
    (p ++ deletedMarker).take ((p ++ deletedMarker).length - 10) = p := by
  have hlen : deletedMarker.length = 10 := by decide
  apply List.take_left'
  rw [List.length_append, hlen]
  omega

/-- A path that does not end with two markers does not end with a marker
once `cleanPath` has been applied. -/
theorem cleanPath_no_marker (proc : Process)
    (h2 : ¬ (deletedMarker ++ deletedMarker) <:+ proc.Path) :
    ¬ deletedMarker <:+ (cleanPath proc).Path := by
  rw [cleanPath_eq]
  by_cases h : deletedMarker <:+ proc.Path
  · simp only [h, if_true]
    obtain ⟨q, hq⟩ := h
    rw [← hq, take_marker]
    rintro ⟨r, hr⟩
    apply h2
    refine ⟨r, ?_⟩
    rw [← hq, ← hr, List.append_assoc]
  · simpa only [h, if_false] using h

/-- The audit branch of `FindProcess`. -/
theorem FindProcess_audit (sys : Sys) (pid : Int) (interceptUnknown : Bool) (e : Event)
    (hiu : ¬ (interceptUnknown = true ∧ pid < 0)) (he : sys.GetEventByPid pid = some e) :
    FindProcess sys MethodAudit pid interceptUnknown =
      (some (cleanPath (parseEnv sys
          { ID := pid, Path := e.ProcPath, Args := Split (Replace e.ProcCmdLine 0 32) 32,
            CWD := e.ProcDir, Env := fun _ => none } [SysCall.GetEventByPid pid]).1),
        (parseEnv sys
          { ID := pid, Path := e.ProcPath, Args := Split (Replace e.ProcCmdLine 0 32) 32,
            CWD := e.ProcDir, Env := fun _ => none } [SysCall.GetEventByPid pid]).2) := by
  simp only [FindProcess, hiu, if_false, if_true, he, NewProcess]

/-- The live branch of `FindProcess` when the executable link is missing. -/
theorem FindProcess_no_entry (sys : Sys) (MonitorMethod : GoString) (pid : Int)
    (interceptUnknown : Bool) (hiu : ¬ (interceptUnknown = true ∧ pid < 0))
    (ha : MonitorMethod = MethodAudit → sys.GetEventByPid pid = none)
    (hl : sys.Lstat (exeLink pid) = false) :
    FindProcess sys MonitorMethod pid interceptUnknown =
      (none, auditLog MonitorMethod pid ++ [SysCall.Lstat (exeLink pid)]) := by
  by_cases hm : MonitorMethod = MethodAudit
  · simp [FindProcess, hiu, hm, ha hm, hl, auditLog]
  · simp [FindProcess, hiu, hm, hl, auditLog]

/-- The live branch of `FindProcess` when the executable link is readable. -/
theorem FindProcess_live (sys : Sys) (MonitorMethod : GoString) (pid : Int)
    (interceptUnknown : Bool) (link : GoString) (hiu : ¬ (interceptUnknown = true ∧ pid < 0))
    (ha : MonitorMethod = MethodAudit → sys.GetEventByPid pid = none)
    (hl : sys.Lstat (exeLink pid) = true) (hr : sys.Readlink (exeLink pid) = some link) :
    (FindProcess sys MonitorMethod pid interceptUnknown).1 =
      some (cleanPath (parseEnv sys (parseCWD sys (parseCmdLine sys (NewProcess pid link)
        (auditLog MonitorMethod pid ++ [SysCall.Lstat (exeLink pid), SysCall.Readlink (exeLink pid)])).1
        (parseCmdLine sys (NewProcess pid link)
        (auditLog MonitorMethod pid ++ [SysCall.Lstat (exeLink pid), SysCall.Readlink (exeLink pid)])).2).1
        (parseCWD sys (parseCmdLine sys (NewProcess pid link)
        (auditLog MonitorMethod pid ++ [SysCall.Lstat (exeLink pid), SysCall.Readlink (exeLink pid)])).1
        (parseCmdLine sys (NewProcess pid link)
        (auditLog MonitorMethod pid ++ [SysCall.Lstat (exeLink pid), SysCall.Readlink (exeLink pid)])).2).2).1) := by
  by_cases hm : MonitorMethod = MethodAudit
  · simp [FindProcess, hiu, hm, ha hm, hl, hr, auditLog]
  · simp [FindProcess, hiu, hm, hl, hr, auditLog]

/-! ## Claims on `FindProcess` and its helpers -/

/-- C10: for every pid `< 0`, whatever the monitor method, the audit backend
and the process filesystem are, `FindProcess(pid, true)` returns the sentinel
descriptor `NewProcess(0, "")` and makes no call to the audit backend or to
the process filesystem.  `FindProcess(-1, false)` goes through the normal
resolution (the audit lookup under the audit method, then the lstat of the
executable link of pid `-1`) and returns nil; pid `-1` names no process: the process
filesystem has no entry for it and the audit backend holds no record for
it. -/
theorem FindProcess_unknown_sentinel (sys : Sys) (MonitorMethod : GoString) :
    (∀ pid : Int, pid < 0 →
      FindProcess sys MonitorMethod pid true = (some (NewProcess 0 (lit "")), [])) ∧
    (sys.Lstat (exeLink (-1)) = false →
      (MonitorMethod = MethodAudit → sys.GetEventByPid (-1) = none) →
      FindProcess sys MonitorMethod (-1) false =
        (none, auditLog MonitorMethod (-1) ++ [SysCall.Lstat (exeLink (-1))])) := by
  constructor
  · intro pid hpid
    simp [FindProcess, hpid]
  · intro hl ha
    exact FindProcess_no_entry sys MonitorMethod (-1) false (by simp) ha hl

/-- Witness of C10 on a process filesystem that holds process 7 only, under
the audit method. -/
theorem FindProcess_unknown_sentinel_witness :
    FindProcess (liveSys (lit "/bin/ls") [] []) MethodAudit (-5) true =
      (some (NewProcess 0 (lit "")), []) ∧
    FindProcess (liveSys (lit "/bin/ls") [] []) MethodAudit (-1) false =
      (none, [SysCall.GetEventByPid (-1), SysCall.Lstat (lit "/proc/-1/exe")]) :=
  ⟨(FindProcess_unknown_sentinel (liveSys (lit "/bin/ls") [] []) MethodAudit).1 (-5) (by decide),
   (FindProcess_unknown_sentinel (liveSys (lit "/bin/ls") [] []) MethodAudit).2 (by decide)
     (fun _ => rfl)⟩

/-- Counterexample to C3: under the audit method, with a stale audit record
for pid 200 and no entry for pid 200 in the process filesystem,
`FindProcess(200, false)` returns a descriptor. -/
theorem FindProcess_stale_record_counterexample :
    (auditSys (lit "/bin/ls") (lit "ls")).Lstat (exeLink 200) = false ∧
    (FindProcess (auditSys (lit "/bin/ls") (lit "ls")) MethodAudit 200 false).1.isSome = true := by
  decide

theorem parseEnv_some (sys : Sys) (proc : Process) (log : List SysCall) (data : GoString)
    (h : sys.ReadFile (procPath proc.ID (lit "/environ")) = some data) (k : GoString) :
    (parseEnv sys proc log).1.Env k = envLookup (data.splitOn 0) proc.Env k := by
  have hs : Split data 0 = data.splitOn 0 := Split_eq_splitOnP data 0
  simp only [parseEnv, h, hs]
  exact foldl_parseEnvEntry _ _ _

theorem parseEnv_none (sys : Sys) (proc : Process) (log : List SysCall)
    (h : sys.ReadFile (procPath proc.ID (lit "/environ")) = none) :
    (parseEnv sys proc log).1 = proc := by
  simp only [parseEnv, h]

/-- The calls of `parseEnv`: one read of the environment file. -/
theorem parseEnv_log (sys : Sys) (proc : Process) (log : List SysCall) :
    (parseEnv sys proc log).2 = log ++ [SysCall.ReadFile (procPath proc.ID (lit "/environ"))] := by
  simp only [parseEnv]
  split <;> rfl

/-- C3 (amended): for every pid whose executable link cannot be lstat-ed,
(1) `FindProcess(pid, false)` returns nil, except when the monitor method is
audit and the audit backend holds a record for that pid;
(2) in that case it returns a descriptor after two calls, the audit lookup and
the read of the environment file of the pid, with no lstat and no readlink.
The descriptor has the id `pid`, the recorded path with one trailing
deleted-file marker removed, the recorded working directory, and as non-empty
arguments the non-empty tokens of the recorded command line cut at NUL bytes
and at spaces; its environment is empty when the environment file cannot be
read and is built from its content otherwise.
The caches are not read by `FindProcess`. -/
theorem FindProcess_missing_entry (sys : Sys) (MonitorMethod : GoString) (pid : Int)
    (hl : sys.Lstat (exeLink pid) = false) :
    ((FindProcess sys MonitorMethod pid false).1 = none ↔
      ¬ (MonitorMethod = MethodAudit ∧ (sys.GetEventByPid pid).isSome = true)) ∧
    (∀ e : Event, MonitorMethod = MethodAudit → sys.GetEventByPid pid = some e →
      ∃ d, FindProcess sys MonitorMethod pid false =
          (some d, [SysCall.GetEventByPid pid,
            SysCall.ReadFile (procPath pid (lit "/environ"))]) ∧
        d.ID = pid ∧
        d.Path = (if deletedMarker <:+ e.ProcPath then
            e.ProcPath.take (e.ProcPath.length - 10) else e.ProcPath) ∧
        d.CWD = e.ProcDir ∧
        nonEmpty d.Args = nonEmpty (e.ProcCmdLine.splitOnP (fun b => b == 0 || b == 32)) ∧
        (sys.ReadFile (procPath pid (lit "/environ")) = none → ∀ k, d.Env k = none) ∧
        (∀ data, sys.ReadFile (procPath pid (lit "/environ")) = some data →
          ∀ k, d.Env k = envLookup (data.splitOn 0) (fun _ => none) k)) := by
  constructor
  · by_cases hc : MonitorMethod = MethodAudit ∧ (sys.GetEventByPid pid).isSome = true
    · obtain ⟨hm, hs⟩ := hc
      obtain ⟨e, he⟩ := Option.isSome_iff_exists.1 hs
      subst hm
      rw [FindProcess_audit sys pid false e (by simp) he]
      simp [he]
    · have ha : MonitorMethod = MethodAudit → sys.GetEventByPid pid = none := by
        intro hm
        cases hg : sys.GetEventByPid pid with
        | none => rfl
        | some e => exact absurd ⟨hm, by simp [hg]⟩ hc
      rw [FindProcess_no_entry sys MonitorMethod pid false (by simp) ha hl]
      simp [hc]
  · intro e hm he
    subst hm
    rw [FindProcess_audit sys pid false e (by simp) he]
    have key : ∀ p0 : Process, p0.ID = pid → p0.Path = e.ProcPath →
        p0.Args = Split (Replace e.ProcCmdLine 0 32) 32 → p0.CWD = e.ProcDir →
        (p0.Env = fun _ => none) →
        ∃ d, ((some (cleanPath (parseEnv sys p0 [SysCall.GetEventByPid pid]).1),
              (parseEnv sys p0 [SysCall.GetEventByPid pid]).2) : Option Process × List SysCall) =
            (some d, [SysCall.GetEventByPid pid,
              SysCall.ReadFile (procPath pid (lit "/environ"))]) ∧
          d.ID = pid ∧
          d.Path = (if deletedMarker <:+ e.ProcPath then
              e.ProcPath.take (e.ProcPath.length - 10) else e.ProcPath) ∧
          d.CWD = e.ProcDir ∧
          nonEmpty d.Args = nonEmpty (e.ProcCmdLine.splitOnP (fun b => b == 0 || b == 32)) ∧
          (sys.ReadFile (procPath pid (lit "/environ")) = none → ∀ k, d.Env k = none) ∧
          (∀ data, sys.ReadFile (procPath pid (lit "/environ")) = some data →
            ∀ k, d.Env k = envLookup (data.splitOn 0) (fun _ => none) k) := by
      intro p0 hid hpath hargs hcwd henv
      have hf := parseEnv_fields sys p0 [SysCall.GetEventByPid pid]
      have hcf := cleanPath_fields (parseEnv sys p0 [SysCall.GetEventByPid pid]).1
      refine ⟨cleanPath (parseEnv sys p0 [SysCall.GetEventByPid pid]).1, ?_, ?_, ?_, ?_, ?_, ?_, ?_⟩
      · rw [parseEnv_log, hid]
        rfl
      · rw [hcf.1, hf.1, hid]
      · rw [cleanPath_eq, hf.2.1, hpath]
        split <;> simp [hf.2.1, hpath]
      · rw [hcf.2.2.1, hf.2.2.2, hcwd]
      · rw [hcf.2.1, hf.2.2.1, hargs, Split_Replace_eq_splitOnP]
      · intro h k
        rw [← hid] at h
        rw [hcf.2.2.2, parseEnv_none sys p0 _ h, henv]
      · intro data h k
        rw [← hid] at h
        rw [hcf.2.2.2, parseEnv_some sys p0 _ data h k, henv]
    exact key _ rfl rfl rfl rfl rfl

/-- Witness of C3 (amended): pid 200 has no entry in the process filesystem
and the audit backend holds a stale record for it.  Under the proc method the
record is not consulted and the result is nil.  Under the audit method the
result is a descriptor with the recorded path without its marker, made after
the audit lookup and one read of the environment file. -/
theorem FindProcess_missing_entry_witness :
    (FindProcess (auditSys (lit "/bin/ls") (lit "ls")) MethodProc 200 false).1 = none ∧
    ∃ d, FindProcess (auditSys (lit "/bin/ls (deleted)") (lit "ls\x00-la")) MethodAudit 200 false =
        (some d, [SysCall.GetEventByPid 200, SysCall.ReadFile (lit "/proc/200/environ")]) ∧
      d.ID = 200 ∧ d.Path = lit "/bin/ls" ∧ d.CWD = lit "/" ∧
      nonEmpty d.Args = [lit "ls", lit "-la"] ∧ d.Env (lit "A") = none :=
  ⟨((FindProcess_missing_entry (auditSys (lit "/bin/ls") (lit "ls")) MethodProc 200 rfl).1).2
    (by decide),
   ((FindProcess_missing_entry (auditSys (lit "/bin/ls (deleted)") (lit "ls\x00-la")) MethodAudit
      200 rfl).2
      { Pid := 200, PPid := 1, ProcPath := lit "/bin/ls (deleted)",
        ProcCmdLine := lit "ls\x00-la", ProcDir := lit "/" } rfl rfl).imp
    (fun _ h => ⟨h.1, h.2.1, h.2.2.1.trans (by decide), h.2.2.2.1,
      h.2.2.2.2.1.trans (by decide), h.2.2.2.2.2.1 rfl (lit "A")⟩)⟩

/-- Counterexample to C7: the link target `/bin/x (deleted) (deleted)` gives a
descriptor whose path is `/bin/x (deleted)`, which ends with the marker. -/
theorem FindProcess_path_counterexample :
    ∃ d, (FindProcess (liveSys (lit "/bin/x (deleted) (deleted)") [] []) MethodProc 7 false).1
        = some d ∧ d.Path = lit "/bin/x (deleted)" ∧ deletedMarker <:+ d.Path :=
  ⟨_, FindProcess_live (liveSys (lit "/bin/x (deleted) (deleted)") [] []) MethodProc 7 false
    (lit "/bin/x (deleted) (deleted)") (by decide) (fun _ => rfl) rfl rfl, by decide, by decide⟩

/-- C7 (amended): `cleanPath` removes one trailing deleted-file marker:
(1) a path `p` followed by the marker becomes `p`;
(2) a descriptor whose path does not end with the marker is left unchanged;
(3) on the audit branch `FindProcess` returns a descriptor whose path is the
recorded path after `cleanPath`, and (4) on the live branch one whose path is
the link target after `cleanPath`; in both cases the path does not end with
the marker when the source path does not end with two markers. -/
theorem cleanPath_strips_one_marker :
    (∀ (proc : Process) (p : GoString), proc.Path = p ++ deletedMarker →
      (cleanPath proc).Path = p) ∧
    (∀ proc : Process, ¬ deletedMarker <:+ proc.Path → cleanPath proc = proc) ∧
    (∀ (sys : Sys) (pid : Int) (interceptUnknown : Bool) (e : Event),
      ¬ (interceptUnknown = true ∧ pid < 0) → sys.GetEventByPid pid = some e →
      ∃ d, (FindProcess sys MethodAudit pid interceptUnknown).1 = some d ∧
        d.Path = (cleanPath (NewProcess pid e.ProcPath)).Path ∧
        (¬ (deletedMarker ++ deletedMarker) <:+ e.ProcPath → ¬ deletedMarker <:+ d.Path)) ∧
    (∀ (sys : Sys) (MonitorMethod : GoString) (pid : Int) (interceptUnknown : Bool)
      (link : GoString),
      ¬ (interceptUnknown = true ∧ pid < 0) →
      (MonitorMethod = MethodAudit → sys.GetEventByPid pid = none) →
      sys.Lstat (exeLink pid) = true → sys.Readlink (exeLink pid) = some link →
      ∃ d, (FindProcess sys MonitorMethod pid interceptUnknown).1 = some d ∧
        d.Path = (cleanPath (NewProcess pid link)).Path ∧
        (¬ (deletedMarker ++ deletedMarker) <:+ link → ¬ deletedMarker <:+ d.Path)) := by
  refine ⟨?_, ?_, ?_, ?_⟩
  · intro proc p hp
    rw [cleanPath_eq, hp]
    have hs : deletedMarker <:+ p ++ deletedMarker := List.suffix_append _ _
    simp only [hs, if_true, take_marker]
  · intro proc h
    rw [cleanPath_eq]
    simp only [h, if_false]
  · intro sys pid iu e hiu he
    refine ⟨_, congrArg Prod.fst (FindProcess_audit sys pid iu e hiu he), ?_, ?_⟩
    · exact cleanPath_Path_congr _ _ (parseEnv_fields sys _ _).2.1
    · intro h2
      apply cleanPath_no_marker
      rw [(parseEnv_fields sys _ _).2.1]
      exact h2
  · intro sys m pid iu link hiu ha hl hr
    refine ⟨_, FindProcess_live sys m pid iu link hiu ha hl hr, ?_, ?_⟩
    · apply cleanPath_Path_congr
      rw [(parseEnv_fields sys _ _).2.1, (parseCWD_fields sys _ _).2.1,
        (parseCmdLine_fields sys _ _).2.1]
    · intro h2
      apply cleanPath_no_marker
      rw [(parseEnv_fields sys _ _).2.1, (parseCWD_fields sys _ _).2.1,
        (parseCmdLine_fields sys _ _).2.1]
      exact h2

/-- Witness of C7 (amended): the link target `/bin/ls (deleted)` gives the
path `/bin/ls`, and the descriptor `FindProcess` returns for it has a path
that does not end with the marker. -/
theorem cleanPath_strips_one_marker_witness :
    (cleanPath (NewProcess 7 (lit "/bin/ls (deleted)"))).Path = lit "/bin/ls" ∧
    ∃ d, (FindProcess (liveSys (lit "/bin/ls (deleted)") [] []) MethodProc 7 false).1 = some d ∧
      ¬ deletedMarker <:+ d.Path :=
  ⟨cleanPath_strips_one_marker.1 (NewProcess 7 (lit "/bin/ls (deleted)")) (lit "/bin/ls") rfl,
   (cleanPath_strips_one_marker.2.2.2 (liveSys (lit "/bin/ls (deleted)") [] []) MethodProc 7 false
      (lit "/bin/ls (deleted)") (by decide) (fun _ => rfl) rfl rfl).imp
      (fun _ h => ⟨h.1, h.2.2 (by decide)⟩)⟩

/-! ## Command lines -/

/-- The loop of `parseCmdLine` appends the non-empty trimmed tokens. -/
theorem foldl_args (args : List GoString) (acc : List GoString) :
    args.foldl
        (fun acc arg => let arg1 := Trim arg; if arg1 ≠ [] then acc ++ [arg1] else acc) acc =
      acc ++ nonEmpty (args.map Trim) := by
  induction args generalizing acc with
  | nil => simp [nonEmpty]
  | cons a args ih =>
    rw [List.foldl_cons, ih]
    by_cases h : Trim a = []
    · simp [nonEmpty, h]
    · simp [nonEmpty, h]

/-- The argument vector `parseCmdLine` builds from a readable file. -/
theorem parseCmdLine_Args (sys : Sys) (proc : Process) (log : List SysCall) (data : GoString)
    (h : sys.ReadFile (procPath proc.ID (lit "/cmdline")) = some data) :
    (parseCmdLine sys proc log).1.Args =
      proc.Args ++ nonEmpty ((data.splitOnP (fun b => b == 0 || b == 32)).map Trim) := by
  simp only [parseCmdLine, h, foldl_args, Split_Replace_eq_splitOnP]

/-- On a content without white space, cutting at NUL bytes and at spaces and
trimming gives the NUL-separated tokens. -/
theorem tokens_no_space (data : GoString) (h : ∀ b ∈ data, isTrimByte b = false) :
    (data.splitOnP (fun b => b == 0 || b == 32)).map Trim = data.splitOn 0 := by
  have hc : data.splitOnP (fun b => b == 0 || b == 32) = data.splitOnP (fun b => b == 0) := by
    apply splitOnP_congr
    intro x hx
    have h32 : x ≠ 32 := by
      intro h32
      have := h x hx
      rw [h32] at this
      exact absurd this (by decide)
    simp [h32]
  rw [hc]
  have hid : ∀ w ∈ data.splitOnP (fun b => b == 0), Trim w = w :=
    fun w hw => Trim_eq_self w (fun x hx => h x (mem_of_mem_splitOnP _ data w hw x hx))
  rw [List.map_congr_left hid, List.map_id']
  rfl

/-- Counterexample to C8: the content `a b` followed by a NUL byte holds one
NUL-terminated argument, `a b`; `parseCmdLine` yields the two arguments `a`
and `b`. -/
theorem parseCmdLine_space_counterexample :
    (parseCmdLine (liveSys [] (lit "a b\x00") []) (NewProcess 7 []) []).1.Args =
        [lit "a", lit "b"] ∧
    nonEmpty ((lit "a b\x00").splitOn 0) = [lit "a b"] ∧
    (parseCmdLine (liveSys [] (lit "a b\x00") []) (NewProcess 7 []) []).1.Args ≠
        nonEmpty ((lit "a b\x00").splitOn 0) := by
  decide

/-- C8 (amended): on a fresh descriptor and a readable command-line file,
`parseCmdLine` yields an argument vector that contains no empty string and that
is, in order, the list of non-empty white-space-trimmed tokens obtained by
cutting the content at its NUL bytes and at its spaces; when the content holds
no space, tab, line feed or carriage return this is the list of non-empty
tokens obtained by cutting the content at its NUL bytes.  When the file cannot
be read the argument vector stays empty. -/
theorem parseCmdLine_tokens (sys : Sys) (pid : Int) (path : GoString) (log : List SysCall) :
    (∀ data, sys.ReadFile (procPath pid (lit "/cmdline")) = some data →
      [] ∉ (parseCmdLine sys (NewProcess pid path) log).1.Args ∧
      (parseCmdLine sys (NewProcess pid path) log).1.Args =
        nonEmpty ((data.splitOnP (fun b => b == 0 || b == 32)).map Trim) ∧
      ((∀ b ∈ data, isTrimByte b = false) →
        (parseCmdLine sys (NewProcess pid path) log).1.Args = nonEmpty (data.splitOn 0))) ∧
    (sys.ReadFile (procPath pid (lit "/cmdline")) = none →
      (parseCmdLine sys (NewProcess pid path) log).1.Args = []) := by
  constructor
  · intro data h
    have hA := parseCmdLine_Args sys (NewProcess pid path) log data h
    have hA2 : (parseCmdLine sys (NewProcess pid path) log).1.Args =
        nonEmpty ((data.splitOnP (fun b => b == 0 || b == 32)).map Trim) := by
      rw [hA]; rfl
    refine ⟨?_, hA2, ?_⟩
    · rw [hA2]
      intro hmem
      have := (List.mem_filter.1 hmem).2
      simp at this
    · intro hws
      rw [hA2, tokens_no_space data hws]
  · intro h
    have h2 : sys.ReadFile (procPath (NewProcess pid path).ID (lit "/cmdline")) = none := h
    simp only [parseCmdLine, h2]
    rfl

/-- Witness of C8 (amended): the content `ls`, NUL, `-la`, NUL gives the
argument vector `ls`, `-la`. -/
theorem parseCmdLine_tokens_witness :
    (parseCmdLine (liveSys [] (lit "ls\x00-la\x00") []) (NewProcess 7 []) []).1.Args =
      [lit "ls", lit "-la"] :=
  (((parseCmdLine_tokens (liveSys [] (lit "ls\x00-la\x00") []) 7 [] []).1
      (lit "ls\x00-la\x00") rfl).2.2 (by decide)).trans (by decide)

/-- Counterexample to C2: for the recorded command line `ls`, NUL, `-la`, NUL
the argument vector of the audit branch is `ls`, `-la` and an empty string; for
the recorded command line `a b`, which holds one NUL-separated token, it is
`a`, `b`. -/
theorem FindProcess_audit_args_counterexample :
    (FindProcess (auditSys (lit "/bin/ls") (lit "ls\x00-la\x00")) MethodAudit 200 false).1.map
        Process.Args = some [lit "ls", lit "-la", lit ""] ∧
    (FindProcess (auditSys (lit "/bin/ls") (lit "ls\x00-la\x00")) MethodAudit 200 false).1.map
        Process.Args ≠ some [lit "ls", lit "-la"] ∧
    (FindProcess (auditSys (lit "/bin/sh") (lit "a b")) MethodAudit 200 false).1.map
        Process.Args = some [lit "a", lit "b"] ∧
    nonEmpty ((lit "a b").splitOn 0) = [lit "a b"] := by
  decide

/-- C2 (amended): under the audit method, when the audit backend holds the
record `e` for `pid`, `FindProcess(pid, false)` returns a descriptor; the
non-empty entries of its argument vector are, in order, the non-empty tokens
obtained by cutting the recorded command line at its NUL bytes and at its
spaces; when the recorded command line holds no space these are the non-empty
NUL-separated tokens. -/
theorem FindProcess_audit_args (sys : Sys) (pid : Int) (e : Event)
    (he : sys.GetEventByPid pid = some e) :
    ∃ d, (FindProcess sys MethodAudit pid false).1 = some d ∧
      nonEmpty d.Args = nonEmpty (e.ProcCmdLine.splitOnP (fun b => b == 0 || b == 32)) ∧
      ((∀ b ∈ e.ProcCmdLine, b ≠ 32) →
        nonEmpty d.Args = nonEmpty (e.ProcCmdLine.splitOn 0)) := by
  have hd := congrArg Prod.fst (FindProcess_audit sys pid false e (by simp) he)
  have hargs : ∀ (p : Process) (log : List SysCall),
      (cleanPath (parseEnv sys p log).1).Args = p.Args := by
    intro p log
    rw [(cleanPath_fields _).2.1, (parseEnv_fields sys p log).2.2.1]
  refine ⟨_, hd, ?_, ?_⟩
  · rw [hargs, Split_Replace_eq_splitOnP]
  · intro h32
    rw [hargs, Split_Replace_eq_splitOnP]
    have hc : e.ProcCmdLine.splitOnP (fun b => b == 0 || b == 32) =
        e.ProcCmdLine.splitOnP (fun b => b == 0) := by
      apply splitOnP_congr
      intro x hx
      simp [h32 x hx]
    rw [hc]
    rfl

/-- Witness of C2 (amended): for the recorded command line `ls`, NUL, `-la`,
NUL of pid 200 the non-empty entries of the argument vector are `ls`,
`-la`. -/
theorem FindProcess_audit_args_witness :
    ∃ d, (FindProcess (auditSys (lit "/bin/ls") (lit "ls\x00-la\x00")) MethodAudit 200 false).1
        = some d ∧ nonEmpty d.Args = [lit "ls", lit "-la"] :=
  (FindProcess_audit_args (auditSys (lit "/bin/ls") (lit "ls\x00-la\x00")) 200
      { Pid := 200, PPid := 1, ProcPath := lit "/bin/ls", ProcCmdLine := lit "ls\x00-la\x00",
        ProcDir := lit "/" } rfl).imp
    (fun _ h => ⟨h.1, (h.2.2 (by decide)).trans (by decide)⟩)

/-! ## Environment -/

/-- C9: (1) an entry that contains `=` sets the white-space-trimmed text before
its first `=` to the white-space-trimmed text after its first `=` (which may
contain further `=`), and an entry without `=` changes nothing;
(2) after `parseEnv` on a readable environment file, every key `k` maps to the
value of the last of the NUL-separated entries that contain `=` and have the
key `k`, and keeps the value it had when there is no such entry;
(3) the other fields of the descriptor are unchanged. -/
theorem parseEnv_entries (sys : Sys) (proc : Process) (log : List SysCall) :
    (∀ (env : EnvMap) (s : GoString),
      parseEnvEntry env s = if 61 ∈ s then env.set (envKey s) (envVal s) else env) ∧
    (∀ data, sys.ReadFile (procPath proc.ID (lit "/environ")) = some data →
      ∀ k, (parseEnv sys proc log).1.Env k = envLookup (data.splitOn 0) proc.Env k) ∧
    ((parseEnv sys proc log).1.ID = proc.ID ∧ (parseEnv sys proc log).1.Path = proc.Path ∧
      (parseEnv sys proc log).1.Args = proc.Args ∧ (parseEnv sys proc log).1.CWD = proc.CWD) := by
  refine ⟨parseEnvEntry_eq, ?_, parseEnv_fields sys proc log⟩
  intro data h k
  have hs : Split data 0 = data.splitOn 0 := Split_eq_splitOnP data 0
  simp only [parseEnv, h, hs]
  exact foldl_parseEnvEntry _ _ _

/-- Witness of C9 on the environment file `A=1`, `B= x=y `, `junk`, `A=2`
(NUL-terminated entries): `A` maps to `2`, `B` to `x=y`, `junk` to nothing. -/
theorem parseEnv_entries_witness :
    (parseEnv (liveSys [] [] (lit "A=1\x00B= x=y \x00junk\x00A=2\x00")) (NewProcess 7 []) []).1.Env
        (lit "A") = some (lit "2") ∧
    (parseEnv (liveSys [] [] (lit "A=1\x00B= x=y \x00junk\x00A=2\x00")) (NewProcess 7 []) []).1.Env
        (lit "B") = some (lit "x=y") ∧
    (parseEnv (liveSys [] [] (lit "A=1\x00B= x=y \x00junk\x00A=2\x00")) (NewProcess 7 []) []).1.Env
        (lit "junk") = none :=
  ⟨((parseEnv_entries (liveSys [] [] (lit "A=1\x00B= x=y \x00junk\x00A=2\x00")) (NewProcess 7 [])
      []).2.1 _ rfl (lit "A")).trans (by decide),
   ((parseEnv_entries (liveSys [] [] (lit "A=1\x00B= x=y \x00junk\x00A=2\x00")) (NewProcess 7 [])
      []).2.1 _ rfl (lit "B")).trans (by decide),
   ((parseEnv_entries (liveSys [] [] (lit "A=1\x00B= x=y \x00junk\x00A=2\x00")) (NewProcess 7 [])
      []).2.1 _ rfl (lit "junk")).trans (by decide)⟩

/-! ## The trace of `GetPIDFromINode` -/

/-- An audit loop appends backend calls only. -/
theorem auditLoop_trace {κ : Type} (c : Collab κ) (inode : Int) (inodeKey expect : GoString)
    (sel : Event → Int) (es : List Event) (n : Nat) (tr : List Call) :
    ∃ new, (auditLoop c inode inodeKey expect sel es n tr).2 = tr ++ new ∧
      ∀ x ∈ new, Call.isBackend x = true := by
  induction es generalizing n tr with
  | nil => exact ⟨[], by simp [auditLoop], by simp⟩
  | cons e es ih =>
    by_cases he : c.inodeFound (lit "/proc/") expect inodeKey inode (sel e) = true
    · refine ⟨[ownsCall inode inodeKey expect (sel e)], by simp [auditLoop, he], ?_⟩
      intro x hx
      simp only [List.mem_singleton] at hx
      subst hx
      rfl
    · simp only [Bool.not_eq_true] at he
      obtain ⟨new, h1, h2⟩ := ih (n + 1) (tr ++ [ownsCall inode inodeKey expect (sel e)])
      refine ⟨ownsCall inode inodeKey expect (sel e) :: new, ?_, ?_⟩
      · simp only [auditLoop, he, Bool.false_eq_true, if_false, h1]
        simp
      · intro x hx
        rcases List.mem_cons.1 hx with hx | hx
        · subst hx; rfl
        · exact h2 x hx

/-- The audit correlation appends backend calls only. -/
theorem getPIDFromAuditEvents_trace {κ : Type} (c : Collab κ) (inode : Int)
    (inodeKey expect : GoString) (tr : List Call) :
    ∃ new, (getPIDFromAuditEvents c inode inodeKey expect tr).2 = tr ++ new ∧
      ∀ x ∈ new, Call.isBackend x = true := by
  obtain ⟨n1, h1, b1⟩ := auditLoop_trace c inode inodeKey expect Event.Pid c.GetEvents 0
    (tr ++ [Call.GetEvents])
  simp only [getPIDFromAuditEvents, auditPidLoop_eq, auditPPidLoop_eq]
  rcases hr1 : auditLoop c inode inodeKey expect Event.Pid c.GetEvents 0
    (tr ++ [Call.GetEvents]) with ⟨o1, tr1⟩
  rw [hr1] at h1
  simp only [] at h1
  have hb1 : ∀ x ∈ Call.GetEvents :: n1, Call.isBackend x = true := by
    intro x hx
    rcases List.mem_cons.1 hx with hx | hx
    · subst hx; rfl
    · exact b1 x hx
  cases o1 with
  | some r => exact ⟨Call.GetEvents :: n1, by simp [h1], hb1⟩
  | none =>
    simp only []
    obtain ⟨n2, h2, b2⟩ := auditLoop_trace c inode inodeKey expect Event.PPid c.GetEvents 0 tr1
    rcases hr2 : auditLoop c inode inodeKey expect Event.PPid c.GetEvents 0 tr1 with ⟨o2, tr2⟩
    rw [hr2] at h2
    simp only [] at h2
    have hb2 : ∀ x ∈ Call.GetEvents :: n1 ++ n2, Call.isBackend x = true := by
      intro x hx
      rcases List.mem_append.1 hx with hx | hx
      · exact hb1 x hx
      · exact b2 x hx
    cases o2 <;> exact ⟨Call.GetEvents :: n1 ++ n2, by simp [h2, h1], hb2⟩

/-- The tracer iteration appends backend calls only. -/
theorem forEachProcess_trace {κ : Type} (c : Collab κ) (inode : Int)
    (inodeKey expect : GoString) (ps : List LiveProc) (f0 : Int) (tr : List Call) :
    ∃ new, (forEachProcess (tracerVisitor c inode inodeKey expect) ps (f0, tr)).2 = tr ++ new ∧
      ∀ x ∈ new, Call.isBackend x = true := by
  induction ps generalizing tr with
  | nil => exact ⟨[], by simp [forEachProcess], by simp⟩
  | cons p ps ih =>
    by_cases hp : c.inodeFound (lit "/proc/") expect inodeKey inode p.pid = true
    · refine ⟨[Call.inodeFound (lit "/proc/") expect inodeKey inode p.pid],
        by simp [forEachProcess, tracerVisitor, hp], ?_⟩
      intro x hx
      simp only [List.mem_singleton] at hx
      subst hx
      rfl
    · simp only [Bool.not_eq_true] at hp
      obtain ⟨new, h1, h2⟩ := ih (tr ++ [Call.inodeFound (lit "/proc/") expect inodeKey inode p.pid])
      refine ⟨Call.inodeFound (lit "/proc/") expect inodeKey inode p.pid :: new, ?_, ?_⟩
      · simp only [forEachProcess, tracerVisitor, hp, Bool.false_eq_true, if_false, h1]
        simp
      · intro x hx
        rcases List.mem_cons.1 hx with hx | hx
        · subst hx; rfl
        · exact h2 x hx

/-- The last step of `GetPIDFromINode` appends at most the `/proc` scan and
leaves the caches as they are. -/
theorem lookupTail_trace {κ : Type} (c : Collab κ) (MonitorMethod : GoString) (inode : Int)
    (inodeKey expect : GoString) (found : Int) (s : St κ) :
    ∃ new, (lookupTail c MonitorMethod inode inodeKey expect found s).2 =
        { caches := s.caches, trace := s.trace ++ new } ∧
      ∀ x ∈ new, Call.isBackend x = true := by
  unfold lookupTail
  split
  · refine ⟨[Call.lookupPidInProc (lit "/proc/") expect inodeKey inode], rfl, ?_⟩
    intro x hx
    simp only [List.mem_singleton] at hx
    subst hx
    rfl
  · exact ⟨[], by simp, by simp⟩

/-- An inode-cache hit: the cached pid is returned after the age-out and the
inode-cache lookup, and nothing else is called. -/
theorem GetPIDFromINode_inode_hit {κ : Type} (c : Collab κ) (MonitorMethod : GoString)
    (inode : Int) (inodeKey : GoString) (s : St κ) (hpos : 0 < inode)
    (hhit : (inodeLookup c inodeKey s.caches).1 ≠ -1) :
    GetPIDFromINode c MonitorMethod inode inodeKey s =
      ((inodeLookup c inodeKey s.caches).1,
        { caches := (inodeLookup c inodeKey s.caches).2,
          trace := s.trace ++ [Call.cleanUpCaches, Call.getPidByInodeFromCache inodeKey] }) := by
  have hn : ¬ inode ≤ 0 := by omega
  unfold inodeLookup at hhit ⊢
  simp [GetPIDFromINode, hn, hhit]

/-- A PID-cache hit after an inode-cache miss: the cache order is promoted and
the pid is returned; the calls are the age-out, the two cache lookups and the
promotion. -/
theorem GetPIDFromINode_pid_hit {κ : Type} (c : Collab κ) (MonitorMethod : GoString)
    (inode : Int) (inodeKey : GoString) (s : St κ) (hpos : 0 < inode)
    (hmiss : (inodeLookup c inodeKey s.caches).1 = -1)
    (hhit : (pidLookup c inode inodeKey s.caches).1.1 ≠ -1) :
    GetPIDFromINode c MonitorMethod inode inodeKey s =
      ((pidLookup c inode inodeKey s.caches).1.1,
        { caches := c.sortProcEntries (pidLookup c inode inodeKey s.caches).2,
          trace := s.trace ++ [Call.cleanUpCaches, Call.getPidByInodeFromCache inodeKey,
            Call.getPidFromCache inode inodeKey (socketLabel inode), Call.sortProcEntries] }) := by
  have hn : ¬ inode ≤ 0 := by omega
  unfold pidLookup inodeLookup at hhit ⊢
  unfold inodeLookup at hmiss
  simp [GetPIDFromINode, hn, hhit, hmiss]

/-- Both caches miss: after the age-out and the two cache lookups only
backends are called, and the caches are left as the PID-cache scan left
them. -/
theorem GetPIDFromINode_miss_trace {κ : Type} (c : Collab κ) (MonitorMethod : GoString)
    (inode : Int) (inodeKey : GoString) (s : St κ) (hpos : 0 < inode)
    (hmiss : (inodeLookup c inodeKey s.caches).1 = -1)
    (hmiss2 : (pidLookup c inode inodeKey s.caches).1.1 = -1) :
    ∃ rest, (∀ x ∈ rest, Call.isBackend x = true) ∧
      (GetPIDFromINode c MonitorMethod inode inodeKey s).2 =
        { caches := (pidLookup c inode inodeKey s.caches).2,
          trace := s.trace ++ [Call.cleanUpCaches, Call.getPidByInodeFromCache inodeKey,
            Call.getPidFromCache inode inodeKey (socketLabel inode)] ++ rest } := by
  have hn : ¬ inode ≤ 0 := by omega
  unfold pidLookup inodeLookup at hmiss2 ⊢
  unfold inodeLookup at hmiss
  simp only [GetPIDFromINode, hn, if_false, hmiss, hmiss2, ne_eq, not_true_eq_false]
  generalize htr3 : s.trace ++ [Call.cleanUpCaches] ++ [Call.getPidByInodeFromCache inodeKey] ++
        [Call.getPidFromCache inode inodeKey (socketLabel inode)] = tr3
  have htr3' : s.trace ++ [Call.cleanUpCaches, Call.getPidByInodeFromCache inodeKey,
      Call.getPidFromCache inode inodeKey (socketLabel inode)] = tr3 := by
    rw [← htr3]; simp
  rw [htr3']
  by_cases hA : MonitorMethod = MethodAudit
  · obtain ⟨n1, h1, b1⟩ := getPIDFromAuditEvents_trace c inode inodeKey (socketLabel inode) tr3
    simp only [hA, if_true]
    split
    · exact ⟨n1, b1, by simp [h1]⟩
    · obtain ⟨n2, h2, b2⟩ := lookupTail_trace c MethodAudit inode inodeKey (socketLabel inode) (-1)
        { caches := (c.getPidFromCache inode inodeKey (socketLabel inode)
            (c.getPidByInodeFromCache inodeKey (c.cleanUpCaches s.caches)).2).2,
          trace := (getPIDFromAuditEvents c inode inodeKey (socketLabel inode) tr3).2 }
      refine ⟨n1 ++ n2, ?_, ?_⟩
      · intro x hx
        rcases List.mem_append.1 hx with hx | hx
        · exact b1 x hx
        · exact b2 x hx
      · rw [h2]; simp [h1]
  · by_cases hF : MonitorMethod = MethodFtrace
    · subst hF
      have hFA : MethodFtrace ≠ MethodAudit := by decide
      by_cases hw : c.IsWatcherAvailable = true
      · obtain ⟨n1, h1, b1⟩ := forEachProcess_trace c inode inodeKey (socketLabel inode)
          c.liveProcs (-1) (tr3 ++ [Call.IsWatcherAvailable] ++ [Call.forEachProcess])
        obtain ⟨n2, h2, b2⟩ := lookupTail_trace c MethodFtrace inode inodeKey (socketLabel inode)
          (forEachProcess (tracerVisitor c inode inodeKey (socketLabel inode)) c.liveProcs
            (-1, tr3 ++ [Call.IsWatcherAvailable] ++ [Call.forEachProcess])).1
          { caches := (c.getPidFromCache inode inodeKey (socketLabel inode)
              (c.getPidByInodeFromCache inodeKey (c.cleanUpCaches s.caches)).2).2,
            trace := (forEachProcess (tracerVisitor c inode inodeKey (socketLabel inode))
              c.liveProcs (-1, tr3 ++ [Call.IsWatcherAvailable] ++ [Call.forEachProcess])).2 }
        refine ⟨[Call.IsWatcherAvailable, Call.forEachProcess] ++ n1 ++ n2, ?_, ?_⟩
        · intro x hx
          simp only [List.mem_append, List.mem_cons, List.mem_singleton, List.not_mem_nil,
            or_false] at hx
          rcases hx with ((hx | hx) | hx) | hx
          · subst hx; rfl
          · subst hx; rfl
          · exact b1 x hx
          · exact b2 x hx
        · simp only [hFA, if_false, if_true, hw]
          rw [h2]
          dsimp only
          rw [h1]
          simp
      · simp only [Bool.not_eq_true] at hw
        obtain ⟨n2, h2, b2⟩ := lookupTail_trace c MethodFtrace inode inodeKey (socketLabel inode)
          (-1)
          { caches := (c.getPidFromCache inode inodeKey (socketLabel inode)
              (c.getPidByInodeFromCache inodeKey (c.cleanUpCaches s.caches)).2).2,
            trace := tr3 ++ [Call.IsWatcherAvailable] }
        refine ⟨Call.IsWatcherAvailable :: n2, ?_, ?_⟩
        · intro x hx
          rcases List.mem_cons.1 hx with hx | hx
          · subst hx; rfl
          · exact b2 x hx
        · simp only [hFA, if_false, if_true, hw, Bool.false_eq_true]
          rw [h2]; simp
    · obtain ⟨n2, h2, b2⟩ := lookupTail_trace c MonitorMethod inode inodeKey (socketLabel inode)
        (-1)
        { caches := (c.getPidFromCache inode inodeKey (socketLabel inode)
            (c.getPidByInodeFromCache inodeKey (c.cleanUpCaches s.caches)).2).2,
          trace := tr3 }
      refine ⟨n2, b2, ?_⟩
      simp only [hA, hF, if_false]
      rw [h2]

/-! ## Claims on the caches of `GetPIDFromINode` -/

/-- C12: for every inode `> 0`, key and monitor method, when the inode-cache
lookup answers a pid different from `-1`, `GetPIDFromINode` returns that pid,
and the calls it makes are exactly the age-out and the inode-cache lookup: no
PID-cache scan, no ownership test, no audit correlation, no tracer iteration
and no `/proc` scan. -/
theorem GetPIDFromINode_inode_cache_hit {κ : Type} (c : Collab κ) (MonitorMethod : GoString)
    (inode : Int) (inodeKey : GoString) (s : St κ) (hpos : 0 < inode)
    (hhit : (c.getPidByInodeFromCache inodeKey (c.cleanUpCaches s.caches)).1 ≠ -1) :
    (GetPIDFromINode c MonitorMethod inode inodeKey s).1 =
        (c.getPidByInodeFromCache inodeKey (c.cleanUpCaches s.caches)).1 ∧
    (GetPIDFromINode c MonitorMethod inode inodeKey s).2.trace =
        s.trace ++ [Call.cleanUpCaches, Call.getPidByInodeFromCache inodeKey] := by
  rw [GetPIDFromINode_inode_hit c MonitorMethod inode inodeKey s hpos hhit]
  exact ⟨rfl, rfl⟩

/-- Witness of C12: the inode cache answers pid 42; under the audit, the
ftrace and the proc method the result is 42 after two calls. -/
theorem GetPIDFromINode_inode_cache_hit_witness :
    ((GetPIDFromINode (cacheCollab 42 77) MethodAudit 555 [] st1).1 = 42 ∧
      (GetPIDFromINode (cacheCollab 42 77) MethodAudit 555 [] st1).2.trace =
        [Call.cleanUpCaches, Call.getPidByInodeFromCache []]) ∧
    ((GetPIDFromINode (cacheCollab 42 77) MethodFtrace 555 [] st1).1 = 42 ∧
      (GetPIDFromINode (cacheCollab 42 77) MethodFtrace 555 [] st1).2.trace =
        [Call.cleanUpCaches, Call.getPidByInodeFromCache []]) ∧
    ((GetPIDFromINode (cacheCollab 42 77) MethodProc 555 [] st1).1 = 42 ∧
      (GetPIDFromINode (cacheCollab 42 77) MethodProc 555 [] st1).2.trace =
        [Call.cleanUpCaches, Call.getPidByInodeFromCache []]) :=
  ⟨GetPIDFromINode_inode_cache_hit (cacheCollab 42 77) MethodAudit 555 [] st1 (by decide)
      (by decide),
   GetPIDFromINode_inode_cache_hit (cacheCollab 42 77) MethodFtrace 555 [] st1 (by decide)
      (by decide),
   GetPIDFromINode_inode_cache_hit (cacheCollab 42 77) MethodProc 555 [] st1 (by decide)
      (by decide)⟩

/-- C13: in every run of `GetPIDFromINode` with inode `> 0`, the age-out is
the first call made, it is followed by the inode-cache lookup, and it is not
made again: every cache lookup of the run comes after it.  The run reads the
caches it is given through the age-out only: two start states with the same
aged-out caches and the same trace give the same result and end state. -/
theorem GetPIDFromINode_purge_first {κ : Type} (c : Collab κ) (MonitorMethod : GoString)
    (inode : Int) (inodeKey : GoString) (s : St κ) (hpos : 0 < inode) :
    (∃ rest, (GetPIDFromINode c MonitorMethod inode inodeKey s).2.trace =
        s.trace ++ Call.cleanUpCaches :: Call.getPidByInodeFromCache inodeKey :: rest ∧
      Call.cleanUpCaches ∉ rest) ∧
    (∀ s2 : St κ, c.cleanUpCaches s2.caches = c.cleanUpCaches s.caches → s2.trace = s.trace →
      GetPIDFromINode c MonitorMethod inode inodeKey s2 =
        GetPIDFromINode c MonitorMethod inode inodeKey s) := by
  constructor
  · by_cases h1 : (inodeLookup c inodeKey s.caches).1 = -1
    · by_cases h2 : (pidLookup c inode inodeKey s.caches).1.1 = -1
      · obtain ⟨rest, hb, h⟩ :=
          GetPIDFromINode_miss_trace c MonitorMethod inode inodeKey s hpos h1 h2
        refine ⟨Call.getPidFromCache inode inodeKey (socketLabel inode) :: rest, ?_, ?_⟩
        · rw [h]; simp
        · intro hm
          rcases List.mem_cons.1 hm with hm | hm
          · exact Call.noConfusion hm
          · have := hb _ hm
            exact absurd this (by decide)
      · rw [GetPIDFromINode_pid_hit c MonitorMethod inode inodeKey s hpos h1 h2]
        exact ⟨[Call.getPidFromCache inode inodeKey (socketLabel inode), Call.sortProcEntries],
          by simp, by simp⟩
    · rw [GetPIDFromINode_inode_hit c MonitorMethod inode inodeKey s hpos h1]
      exact ⟨[], by simp, by simp⟩
  · intro s2 hc ht
    have hn : ¬ inode ≤ 0 := by omega
    simp only [GetPIDFromINode, hn, if_false, hc, ht]

/-- Witness of C13 on warm caches: the age-out comes first and once, and the
entry `0` of the start state, which the age-out drops, has no influence. -/
theorem GetPIDFromINode_purge_first_witness :
    (∃ rest, (GetPIDFromINode (cacheCollab (-1) 77) MethodProc 555 [] st1).2.trace =
        st1.trace ++ Call.cleanUpCaches :: Call.getPidByInodeFromCache [] :: rest ∧
      Call.cleanUpCaches ∉ rest) ∧
    GetPIDFromINode (cacheCollab (-1) 77) MethodProc 555 [] { caches := [8, 9], trace := [] } =
      GetPIDFromINode (cacheCollab (-1) 77) MethodProc 555 [] st1 :=
  ⟨(GetPIDFromINode_purge_first (cacheCollab (-1) 77) MethodProc 555 [] st1 (by decide)).1,
   (GetPIDFromINode_purge_first (cacheCollab (-1) 77) MethodProc 555 [] st1 (by decide)).2
      { caches := [8, 9], trace := [] } (by decide) rfl⟩

/-- C14: for every inode `> 0` on which the inode cache misses,
(1) when the PID-cache scan answers a pid different from `-1`,
`GetPIDFromINode` runs the promotion `sortProcEntries` on the caches and then
returns that pid; the calls it makes are exactly the age-out, the two cache
lookups and the promotion: no audit correlation, no tracer iteration and no
`/proc` scan;
(2) when the PID-cache scan answers `-1`, no promotion is made: the calls after
the two cache lookups are backend calls and the caches are left as the scan
left them. -/
theorem GetPIDFromINode_pid_cache_hit {κ : Type} (c : Collab κ) (MonitorMethod : GoString)
    (inode : Int) (inodeKey : GoString) (s : St κ) (hpos : 0 < inode)
    (hmiss : (inodeLookup c inodeKey s.caches).1 = -1) :
    ((pidLookup c inode inodeKey s.caches).1.1 ≠ -1 →
      GetPIDFromINode c MonitorMethod inode inodeKey s =
        ((pidLookup c inode inodeKey s.caches).1.1,
          { caches := c.sortProcEntries (pidLookup c inode inodeKey s.caches).2,
            trace := s.trace ++ [Call.cleanUpCaches, Call.getPidByInodeFromCache inodeKey,
              Call.getPidFromCache inode inodeKey (socketLabel inode), Call.sortProcEntries] })) ∧
    ((pidLookup c inode inodeKey s.caches).1.1 = -1 →
      ∃ rest, Call.sortProcEntries ∉ rest ∧
        (GetPIDFromINode c MonitorMethod inode inodeKey s).2.trace =
          s.trace ++ [Call.cleanUpCaches, Call.getPidByInodeFromCache inodeKey,
            Call.getPidFromCache inode inodeKey (socketLabel inode)] ++ rest ∧
        (GetPIDFromINode c MonitorMethod inode inodeKey s).2.caches =
          (pidLookup c inode inodeKey s.caches).2) := by
  constructor
  · intro hhit
    exact GetPIDFromINode_pid_hit c MonitorMethod inode inodeKey s hpos hmiss hhit
  · intro hmiss2
    obtain ⟨rest, hb, h⟩ :=
      GetPIDFromINode_miss_trace c MonitorMethod inode inodeKey s hpos hmiss hmiss2
    refine ⟨rest, ?_, ?_, ?_⟩
    · intro hm
      have := hb _ hm
      exact absurd this (by decide)
    · rw [h]
    · rw [h]

/-- Witness of C14: the inode cache misses and the PID-cache scan answers pid
77; the result is 77, the cache order `8, 9` left by the age-out becomes
`77, 8, 9`, and four calls are made. -/
theorem GetPIDFromINode_pid_cache_hit_witness :
    GetPIDFromINode (cacheCollab (-1) 77) MethodAudit 555 [] st1 =
      (77, { caches := [77, 8, 9],
             trace := [Call.cleanUpCaches, Call.getPidByInodeFromCache [],
               Call.getPidFromCache 555 [] (lit "socket:[555]"), Call.sortProcEntries] }) :=
  (GetPIDFromINode_pid_cache_hit (cacheCollab (-1) 77) MethodAudit 555 [] st1 (by decide)
    (by decide)).1 (by decide)

/-! ## Soundness and completeness of the audit correlation -/

/-- A candidate returned by an audit loop is the candidate of the event at the
returned index, and it passes the matcher. -/
theorem auditLoop_some {κ : Type} (c : Collab κ) (inode : Int) (inodeKey expect : GoString)
    (sel : Event → Int) (es : List Event) (n : Nat) (tr : List Call) (p i : Int)
    (h : (auditLoop c inode inodeKey expect sel es n tr).1 = some (p, i)) :
    ∃ (j : Nat) (e : Event), i = ((n + j : Nat) : Int) ∧ es[j]? = some e ∧ sel e = p ∧
      c.inodeFound (lit "/proc/") expect inodeKey inode p = true := by
  induction es generalizing n tr with
  | nil => simp [auditLoop] at h
  | cons a es ih =>
    by_cases ha : c.inodeFound (lit "/proc/") expect inodeKey inode (sel a) = true
    · simp only [auditLoop, ha, if_true, Option.some.injEq, Prod.mk.injEq] at h
      obtain ⟨hp, hi⟩ := h
      refine ⟨0, a, ?_, by simp, hp, ?_⟩
      · rw [← hi]; rfl
      · rw [← hp]; exact ha
    · simp only [Bool.not_eq_true] at ha
      simp only [auditLoop, ha, Bool.false_eq_true, if_false] at h
      obtain ⟨j, e, hi, he, hs, hf⟩ := ih (n + 1) _ h
      refine ⟨j + 1, e, ?_, ?_, hs, hf⟩
      · rw [hi]; congr 1; omega
      · simpa using he

/-- An audit loop finds nothing exactly when no candidate passes the
matcher. -/
theorem auditLoop_eq_none {κ : Type} (c : Collab κ) (inode : Int) (inodeKey expect : GoString)
    (sel : Event → Int) (es : List Event) (n : Nat) (tr : List Call) :
    (auditLoop c inode inodeKey expect sel es n tr).1 = none ↔
      ∀ x ∈ es, c.inodeFound (lit "/proc/") expect inodeKey inode (sel x) = false := by
  constructor
  · intro h
    have hf := auditLoop_fst c inode inodeKey expect sel es n tr
    rw [h] at hf
    simp only [Option.map_none'] at hf
    have hn : es.find? (fun x => c.inodeFound (lit "/proc/") expect inodeKey inode (sel x)) = none := by
      cases hg : es.find? (fun x => c.inodeFound (lit "/proc/") expect inodeKey inode (sel x)) with
      | none => rfl
      | some e => rw [hg] at hf; simp at hf
    intro x hx
    simpa using List.find?_eq_none.1 hn x hx
  · intro h
    rw [auditLoop_none c inode inodeKey expect sel es n tr h]

/-- The three outcomes of `getPIDFromAuditEvents`. -/
theorem getPIDFromAuditEvents_cases {κ : Type} (c : Collab κ) (inode : Int)
    (inodeKey expect : GoString) (tr : List Call) :
    (∃ (j : Nat) (e : Event), c.GetEvents[j]? = some e ∧
        c.inodeFound (lit "/proc/") expect inodeKey inode e.Pid = true ∧
        (getPIDFromAuditEvents c inode inodeKey expect tr).1 = (e.Pid, (j : Int))) ∨
    ((∀ x ∈ c.GetEvents, c.inodeFound (lit "/proc/") expect inodeKey inode x.Pid = false) ∧
      ∃ (j : Nat) (e : Event), c.GetEvents[j]? = some e ∧
        c.inodeFound (lit "/proc/") expect inodeKey inode e.PPid = true ∧
        (getPIDFromAuditEvents c inode inodeKey expect tr).1 = (e.PPid, (j : Int))) ∨
    ((∀ x ∈ c.GetEvents, c.inodeFound (lit "/proc/") expect inodeKey inode x.Pid = false ∧
        c.inodeFound (lit "/proc/") expect inodeKey inode x.PPid = false) ∧
      (getPIDFromAuditEvents c inode inodeKey expect tr).1 = (-1, -1)) := by
  simp only [getPIDFromAuditEvents, auditPidLoop_eq, auditPPidLoop_eq]
  rcases hr1 : auditLoop c inode inodeKey expect Event.Pid c.GetEvents 0
    (tr ++ [Call.GetEvents]) with ⟨o1, tr1⟩
  cases o1 with
  | some r =>
    obtain ⟨p, i⟩ := r
    have h1 : (auditLoop c inode inodeKey expect Event.Pid c.GetEvents 0
        (tr ++ [Call.GetEvents])).1 = some (p, i) := by rw [hr1]
    obtain ⟨j, e, hi, he, hs, hf⟩ := auditLoop_some c inode inodeKey expect Event.Pid _ 0 _ p i h1
    left
    refine ⟨j, e, he, by rw [hs]; exact hf, ?_⟩
    simp only [Nat.zero_add] at hi
    simp only [hs, hi]
  | none =>
    have h1 : (auditLoop c inode inodeKey expect Event.Pid c.GetEvents 0
        (tr ++ [Call.GetEvents])).1 = none := by rw [hr1]
    have hall1 := (auditLoop_eq_none c inode inodeKey expect Event.Pid _ 0 _).1 h1
    right
    simp only []
    rcases hr2 : auditLoop c inode inodeKey expect Event.PPid c.GetEvents 0 tr1 with ⟨o2, tr2⟩
    cases o2 with
    | some r =>
      obtain ⟨p, i⟩ := r
      have h2 : (auditLoop c inode inodeKey expect Event.PPid c.GetEvents 0 tr1).1 =
          some (p, i) := by rw [hr2]
      obtain ⟨j, e, hi, he, hs, hf⟩ :=
        auditLoop_some c inode inodeKey expect Event.PPid _ 0 _ p i h2
      left
      refine ⟨hall1, j, e, he, by rw [hs]; exact hf, ?_⟩
      simp only [Nat.zero_add] at hi
      simp only [hs, hi]
    | none =>
      have h2 : (auditLoop c inode inodeKey expect Event.PPid c.GetEvents 0 tr1).1 = none := by
        rw [hr2]
      have hall2 := (auditLoop_eq_none c inode inodeKey expect Event.PPid _ 0 _).1 h2
      right
      exact ⟨fun x hx => ⟨hall1 x hx, hall2 x hx⟩, rfl⟩

/-- C16: (1) `getPIDFromAuditEvents` returns `(-1, -1)` if and only if no
event's recorded pid and no event's recorded parent pid passes the matcher;
(2) whenever it returns `(p, n)` with `p` different from `-1`, `n` is a valid
index of the event sequence, `p` is the recorded pid or the recorded parent pid
of event `n`, and the matcher is true for `p`;
(3) when the matcher is false for pid `-1`, the returned pid is `-1` if and
only if nothing passes. -/
theorem getPIDFromAuditEvents_sound_complete {κ : Type} (c : Collab κ) (inode : Int)
    (inodeKey expect : GoString) (tr : List Call) :
    ((getPIDFromAuditEvents c inode inodeKey expect tr).1 = (-1, -1) ↔
      ∀ x ∈ c.GetEvents, c.inodeFound (lit "/proc/") expect inodeKey inode x.Pid = false ∧
        c.inodeFound (lit "/proc/") expect inodeKey inode x.PPid = false) ∧
    (∀ p n : Int, (getPIDFromAuditEvents c inode inodeKey expect tr).1 = (p, n) → p ≠ -1 →
      ∃ (j : Nat) (e : Event), n = (j : Int) ∧ j < c.GetEvents.length ∧
        c.GetEvents[j]? = some e ∧ (p = e.Pid ∨ p = e.PPid) ∧
        c.inodeFound (lit "/proc/") expect inodeKey inode p = true) ∧
    (c.inodeFound (lit "/proc/") expect inodeKey inode (-1) = false →
      ((getPIDFromAuditEvents c inode inodeKey expect tr).1.1 = -1 ↔
        ∀ x ∈ c.GetEvents, c.inodeFound (lit "/proc/") expect inodeKey inode x.Pid = false ∧
          c.inodeFound (lit "/proc/") expect inodeKey inode x.PPid = false)) := by
  have hidx : ∀ (j : Nat) (e : Event), c.GetEvents[j]? = some e →
      j < c.GetEvents.length ∧ e ∈ c.GetEvents := by
    intro j e he
    obtain ⟨hj, hget⟩ := List.getElem?_eq_some.1 he
    exact ⟨hj, hget ▸ List.getElem_mem hj⟩
  have hnat : ∀ j : Nat, (j : Int) ≠ -1 := by intro j; omega
  rcases getPIDFromAuditEvents_cases c inode inodeKey expect tr with
    ⟨j, e, he, hf, hr⟩ | ⟨hall, j, e, he, hf, hr⟩ | ⟨hall, hr⟩
  · obtain ⟨hj, hmem⟩ := hidx j e he
    refine ⟨?_, ?_, ?_⟩
    · rw [hr]
      constructor
      · intro h
        exact absurd (Prod.mk.inj h).2 (hnat j)
      · intro h
        rw [(h e hmem).1] at hf
        exact absurd hf (by decide)
    · intro p n hpn _
      rw [hr] at hpn
      obtain ⟨hp, hn⟩ := Prod.mk.inj hpn
      exact ⟨j, e, hn.symm, hj, he, Or.inl hp.symm, hp ▸ hf⟩
    · intro hneg
      rw [hr]
      constructor
      · intro h
        simp only [] at h
        rw [h, hneg] at hf
        exact absurd hf (by decide)
      · intro h
        rw [(h e hmem).1] at hf
        exact absurd hf (by decide)
  · obtain ⟨hj, hmem⟩ := hidx j e he
    refine ⟨?_, ?_, ?_⟩
    · rw [hr]
      constructor
      · intro h
        exact absurd (Prod.mk.inj h).2 (hnat j)
      · intro h
        rw [(h e hmem).2] at hf
        exact absurd hf (by decide)
    · intro p n hpn _
      rw [hr] at hpn
      obtain ⟨hp, hn⟩ := Prod.mk.inj hpn
      exact ⟨j, e, hn.symm, hj, he, Or.inr hp.symm, hp ▸ hf⟩
    · intro hneg
      rw [hr]
      constructor
      · intro h
        simp only [] at h
        rw [h, hneg] at hf
        exact absurd hf (by decide)
      · intro h
        rw [(h e hmem).2] at hf
        exact absurd hf (by decide)
  · refine ⟨?_, ?_, ?_⟩
    · rw [hr]
      exact ⟨fun _ => hall, fun _ => rfl⟩
    · intro p n hpn hp
      rw [hr] at hpn
      exact absurd (Prod.mk.inj hpn).1.symm hp
    · intro _
      rw [hr]
      exact ⟨fun _ => hall, fun _ => rfl⟩

/-- Witness of C16 on the synthetic process tree, where the matcher is false
for pid `-1`: with the events `(pid 3, ppid 4)`, `(pid 5, ppid 100)` the
returned pid is not `-1`, since the parent pid 100 of the second event
passes. -/
theorem getPIDFromAuditEvents_sound_complete_witness :
    ¬ (getPIDFromAuditEvents (treeCollab [mkEvent 3 4, mkEvent 5 100] false []) 555 []
        (lit "socket:[555]") []).1.1 = -1 :=
  fun h =>
    absurd
      ((((getPIDFromAuditEvents_sound_complete (treeCollab [mkEvent 3 4, mkEvent 5 100] false [])
        555 [] (lit "socket:[555]") []).2.2 (by decide)).1 h) (mkEvent 5 100) (by decide)).2
      (by decide)

/-! ## Partial data -/

theorem parseCmdLine_none (sys : Sys) (proc : Process) (log : List SysCall)
    (h : sys.ReadFile (procPath proc.ID (lit "/cmdline")) = none) :
    (parseCmdLine sys proc log).1 = proc := by
  simp only [parseCmdLine, h]

theorem parseCWD_some (sys : Sys) (proc : Process) (log : List SysCall) (link : GoString)
    (h : sys.Readlink (procPath proc.ID (lit "/cwd")) = some link) :
    (parseCWD sys proc log).1.CWD = link := by
  simp only [parseCWD, h]

theorem parseCWD_none (sys : Sys) (proc : Process) (log : List SysCall)
    (h : sys.Readlink (procPath proc.ID (lit "/cwd")) = none) :
    (parseCWD sys proc log).1 = proc := by
  simp only [parseCWD, h]

/-- C11: for every pid whose executable link exists and is readable and for
which the audit branch is not taken, `FindProcess` returns a descriptor for
that pid, whichever of the three further reads fail.  The argument vector is
empty when the command-line file cannot be read and is built from its content
otherwise; the working directory is empty when its link cannot be read and is
the link target otherwise; the environment is empty when the environment file
cannot be read and is built from its content otherwise. -/
theorem FindProcess_partial_data (sys : Sys) (MonitorMethod : GoString) (pid : Int)
    (interceptUnknown : Bool) (link : GoString)
    (hiu : ¬ (interceptUnknown = true ∧ pid < 0))
    (ha : MonitorMethod = MethodAudit → sys.GetEventByPid pid = none)
    (hl : sys.Lstat (exeLink pid) = true) (hr : sys.Readlink (exeLink pid) = some link) :
    ∃ d, (FindProcess sys MonitorMethod pid interceptUnknown).1 = some d ∧ d.ID = pid ∧
      (sys.ReadFile (procPath pid (lit "/cmdline")) = none → d.Args = []) ∧
      (∀ data, sys.ReadFile (procPath pid (lit "/cmdline")) = some data →
        d.Args = nonEmpty ((data.splitOnP (fun b => b == 0 || b == 32)).map Trim)) ∧
      (sys.Readlink (procPath pid (lit "/cwd")) = none → d.CWD = []) ∧
      (∀ cwd, sys.Readlink (procPath pid (lit "/cwd")) = some cwd → d.CWD = cwd) ∧
      (sys.ReadFile (procPath pid (lit "/environ")) = none → ∀ k, d.Env k = none) ∧
      (∀ data, sys.ReadFile (procPath pid (lit "/environ")) = some data →
        ∀ k, d.Env k = envLookup (data.splitOn 0) (fun _ => none) k) := by
  refine ⟨_, FindProcess_live sys MonitorMethod pid interceptUnknown link hiu ha hl hr, ?_⟩
  generalize auditLog MonitorMethod pid ++ [SysCall.Lstat (exeLink pid),
    SysCall.Readlink (exeLink pid)] = log0
  generalize hz : parseCmdLine sys (NewProcess pid link) log0 = z
  generalize hy : parseCWD sys z.1 z.2 = y
  generalize hx : parseEnv sys y.1 y.2 = x
  have hzf := parseCmdLine_fields sys (NewProcess pid link) log0
  have hyf := parseCWD_fields sys z.1 z.2
  have hxf := parseEnv_fields sys y.1 y.2
  have hcf := cleanPath_fields x.1
  rw [hz] at hzf
  rw [hy] at hyf
  rw [hx] at hxf
  have hzid : z.1.ID = pid := hzf.1
  have hyid : y.1.ID = pid := hyf.1.trans hzid
  refine ⟨?_, ?_, ?_, ?_, ?_, ?_, ?_⟩
  · rw [hcf.1, hxf.1, hyid]
  · intro h
    rw [hcf.2.1, hxf.2.2.1, hyf.2.2.1, ← hz, parseCmdLine_none sys (NewProcess pid link) log0 h]
    rfl
  · intro data h
    rw [hcf.2.1, hxf.2.2.1, hyf.2.2.1, ← hz, parseCmdLine_Args sys (NewProcess pid link) log0 data h]
    rfl
  · intro h
    rw [← hzid] at h
    rw [hcf.2.2.1, hxf.2.2.2, ← hy, parseCWD_none sys z.1 z.2 h, hzf.2.2.1]
    rfl
  · intro cwd h
    rw [← hzid] at h
    rw [hcf.2.2.1, hxf.2.2.2, ← hy, parseCWD_some sys z.1 z.2 cwd h]
  · intro h k
    rw [← hyid] at h
    rw [hcf.2.2.2, ← hx, parseEnv_none sys y.1 y.2 h, hyf.2.2.2, hzf.2.2.2]
    rfl
  · intro data h k
    rw [← hyid] at h
    rw [hcf.2.2.2, ← hx, parseEnv_some sys y.1 y.2 data h k, hyf.2.2.2, hzf.2.2.2]
    rfl

/-- Witness of C11: process 9 has a readable executable link and environment
file, and an unreadable command line and working directory; the descriptor has
no argument, an empty working directory, and the variable `A` set to `1`. -/
theorem FindProcess_partial_data_witness :
    ∃ d, (FindProcess partialSys MethodProc 9 false).1 = some d ∧ d.ID = 9 ∧ d.Args = [] ∧
      d.CWD = [] ∧ d.Env (lit "A") = some (lit "1") :=
  (FindProcess_partial_data partialSys MethodProc 9 false (lit "/bin/sh") (by decide)
      (fun _ => rfl) rfl rfl).imp
    (fun _ h => ⟨h.1, h.2.1, h.2.2.1 rfl, h.2.2.2.2.1 rfl,
      (h.2.2.2.2.2.2.2 (lit "A=1\x00") rfl (lit "A")).trans (by decide)⟩)

/-! ## Arguments that hold white space -/

/-- No piece of a split holds a separator. -/
theorem splitOnP_piece {α : Type} (p : α → Bool) (l : List α) :
    ∀ w ∈ l.splitOnP p, ∀ x ∈ w, p x = false := by
  induction l with
  | nil => intro w hw x hx; simp [List.splitOnP_nil] at hw; subst hw; simp at hx
  | cons a l ih =>
    intro w hw x hx
    rw [List.splitOnP_cons] at hw
    by_cases ha : p a = true
    · simp only [ha, if_true, List.mem_cons] at hw
      rcases hw with hw | hw
      · subst hw; simp at hx
      · exact ih w hw x hx
    · simp only [ha, Bool.false_eq_true, if_false] at hw
      cases hs : List.splitOnP p l with
      | nil => rw [hs] at hw; simp [List.modifyHead] at hw
      | cons v vs =>
        rw [hs] at hw ih
        simp only [List.modifyHead, List.mem_cons] at hw
        rcases hw with hw | hw
        · subst hw
          rcases List.mem_cons.1 hx with hx | hx
          · subst hx; simpa using ha
          · exact ih v (List.mem_cons_self _ _) x hx
        · exact ih w (List.mem_cons_of_mem _ hw) x hx

/-- A token cut at NUL bytes and at spaces holds neither. -/
theorem token_no_sep (data : GoString) (w : GoString)
    (hw : w ∈ data.splitOnP (fun b => b == 0 || b == 32)) : 0 ∉ w ∧ 32 ∉ w := by
  have h := splitOnP_piece (fun b => b == 0 || b == 32) data w hw
  constructor
  · intro h0
    have := h 0 h0
    simp at this
  · intro h32
    have := h 32 h32
    simp at this

theorem tokens_a_b :
    nonEmpty (((lit "a b\x00").splitOnP (fun b => b == 0 || b == 32)).map Trim) =
      [lit "a", lit "b"] := by
  decide

theorem split_a_b : Split (Replace (lit "a b") 0 32) 32 = [lit "a", lit "b"] := by
  decide

/-- C17: (1) on a readable command-line file `parseCmdLine` yields, on a fresh
descriptor, the non-empty white-space-trimmed tokens obtained by cutting the
content at every NUL byte and at every space, so that no entry of the argument
vector holds a space;
(2) for the content `a b` followed by a NUL byte, which holds the single
NUL-terminated argument `a b`, the argument vector is `a`, `b`: it has more
entries than the content has NUL-terminated arguments;
(3) on the audit branch of `FindProcess` the recorded command line is cut at
every NUL byte and at every space too: no entry of the argument vector holds a
space, and the non-empty entries are the non-empty tokens of that cut;
(4) for the recorded command line `a b` the argument vector of the audit
branch is `a`, `b`. -/
theorem parseCmdLine_cuts_at_spaces :
    (∀ (sys : Sys) (pid : Int) (path : GoString) (log : List SysCall) (data : GoString),
      sys.ReadFile (procPath pid (lit "/cmdline")) = some data →
      (parseCmdLine sys (NewProcess pid path) log).1.Args =
          nonEmpty ((data.splitOnP (fun b => b == 0 || b == 32)).map Trim) ∧
        ∀ a ∈ (parseCmdLine sys (NewProcess pid path) log).1.Args, 0 ∉ a ∧ 32 ∉ a) ∧
    (∀ (sys : Sys) (pid : Int) (path : GoString) (log : List SysCall),
      sys.ReadFile (procPath pid (lit "/cmdline")) = some (lit "a b\x00") →
      (parseCmdLine sys (NewProcess pid path) log).1.Args = [lit "a", lit "b"] ∧
        (nonEmpty ((lit "a b\x00").splitOn 0)).length <
          (parseCmdLine sys (NewProcess pid path) log).1.Args.length) ∧
    (∀ (sys : Sys) (pid : Int) (e : Event), sys.GetEventByPid pid = some e →
      ∃ d, (FindProcess sys MethodAudit pid false).1 = some d ∧
        (∀ a ∈ d.Args, 0 ∉ a ∧ 32 ∉ a) ∧
        nonEmpty d.Args = nonEmpty (e.ProcCmdLine.splitOnP (fun b => b == 0 || b == 32))) ∧
    (∀ (sys : Sys) (pid : Int) (e : Event), sys.GetEventByPid pid = some e →
      e.ProcCmdLine = lit "a b" →
      ∃ d, (FindProcess sys MethodAudit pid false).1 = some d ∧ d.Args = [lit "a", lit "b"] ∧
        (nonEmpty ((lit "a b").splitOn 0)).length < d.Args.length) := by
  have hargs : ∀ (sys : Sys) (p : Process) (log : List SysCall),
      (cleanPath (parseEnv sys p log).1).Args = p.Args := by
    intro sys p log
    rw [(cleanPath_fields _).2.1, (parseEnv_fields sys p log).2.2.1]
  refine ⟨?_, ?_, ?_, ?_⟩
  · intro sys pid path log data h
    have hA : (parseCmdLine sys (NewProcess pid path) log).1.Args =
        nonEmpty ((data.splitOnP (fun b => b == 0 || b == 32)).map Trim) := by
      rw [parseCmdLine_Args sys (NewProcess pid path) log data h]; rfl
    refine ⟨hA, ?_⟩
    intro a ha
    rw [hA] at ha
    obtain ⟨w, hw, hwa⟩ := List.mem_map.1 (List.mem_filter.1 ha).1
    have hsep := token_no_sep data w hw
    subst hwa
    exact ⟨fun h0 => hsep.1 (Trim_mem w 0 h0), fun h32 => hsep.2 (Trim_mem w 32 h32)⟩
  · intro sys pid path log h
    have hA : (parseCmdLine sys (NewProcess pid path) log).1.Args = [lit "a", lit "b"] := by
      rw [parseCmdLine_Args sys (NewProcess pid path) log _ h, tokens_a_b]; rfl
    rw [hA]
    exact ⟨rfl, by decide⟩
  · intro sys pid e he
    refine ⟨_, congrArg Prod.fst (FindProcess_audit sys pid false e (by simp) he), ?_, ?_⟩
    · intro a ha
      rw [hargs, Split_Replace_eq_splitOnP] at ha
      exact token_no_sep e.ProcCmdLine a ha
    · rw [hargs, Split_Replace_eq_splitOnP]
  · intro sys pid e he hcmd
    refine ⟨_, congrArg Prod.fst (FindProcess_audit sys pid false e (by simp) he), ?_⟩
    rw [hargs]
    simp only [hcmd, split_a_b]
    exact ⟨trivial, by decide⟩

/-- Witness of C17: the command-line file of process 7 holds `a b` and a NUL
byte; the audit record of pid 200 holds `a b`; both argument vectors are `a`,
`b`. -/
theorem parseCmdLine_cuts_at_spaces_witness :
    (parseCmdLine (liveSys [] (lit "a b\x00") []) (NewProcess 7 []) []).1.Args =
        [lit "a", lit "b"] ∧
    ∃ d, (FindProcess (auditSys (lit "/bin/sh") (lit "a b")) MethodAudit 200 false).1 = some d ∧
      d.Args = [lit "a", lit "b"] :=
  ⟨(parseCmdLine_cuts_at_spaces.2.1 (liveSys [] (lit "a b\x00") []) 7 [] [] rfl).1,
   (parseCmdLine_cuts_at_spaces.2.2.2 (auditSys (lit "/bin/sh") (lit "a b")) 200
      { Pid := 200, PPid := 1, ProcPath := lit "/bin/sh", ProcCmdLine := lit "a b",
        ProcDir := lit "/" } rfl rfl).imp (fun _ h => ⟨h.1, h.2.1⟩)⟩

/-! ## Runtime selection of the monitor method -/

/-- The monitor method `loadConfiguration` leaves: the decoded one when the
decode succeeds and it is not empty, the old one otherwise. -/
theorem loadConfiguration_method_eq (Unmarshal : GoString → Config → Config × Bool)
    (rawConfig : GoString) (g : Globals) :
    (loadConfiguration Unmarshal rawConfig g).2.MonitorMethod =
      (if (Unmarshal rawConfig g.config).2 = true ∧
          (Unmarshal rawConfig g.config).1.ProcMonitorMethod ≠ lit "" then
        (Unmarshal rawConfig g.config).1.ProcMonitorMethod
      else g.MonitorMethod) := by
  generalize hr : Unmarshal rawConfig g.config = r
  obtain ⟨cfg, ok⟩ := r
  cases ok
  · simp [loadConfiguration, hr]
  · by_cases h1 : cfg.DefaultAction = lit "" <;> by_cases h2 : cfg.DefaultDuration = lit "" <;>
      by_cases h4 : cfg.ProcMonitorMethod = lit "" <;> cases h3 : cfg.LogLevel <;>
      simp [loadConfiguration, hr, h1, h2, h3, h4]

/-- Counterexample to C15, with `json.Unmarshal` as `encoding/json` documents
it on three inputs (`sampleUnmarshal`) and the audit method selected at the
start.
(1) The input `rawBadTypeConfig` is valid JSON; `loadConfiguration` returns
false on it.
(2) The input `rawPartialConfig` is valid JSON; `loadConfiguration` returns
false on it and leaves the audit method.  The empty object, loaded next, is
valid JSON and names no monitor method; `loadConfiguration` returns true on it
and the monitor method changes from audit to ftrace. -/
theorem loadConfiguration_valid_json_counterexample :
    (loadConfiguration sampleUnmarshal rawBadTypeConfig globals0).1 = false ∧
    ((loadConfiguration sampleUnmarshal rawPartialConfig globals0).1 = false ∧
      (loadConfiguration sampleUnmarshal rawPartialConfig globals0).2.MonitorMethod = MethodAudit ∧
      (loadConfiguration sampleUnmarshal (lit "\x7b\x7d")
        (loadConfiguration sampleUnmarshal rawPartialConfig globals0).2).1 = true ∧
      (loadConfiguration sampleUnmarshal (lit "\x7b\x7d")
        (loadConfiguration sampleUnmarshal rawPartialConfig globals0).2).2.MonitorMethod =
          MethodFtrace) := by
  decide

/-- C15 (amended): (1) when `json.Unmarshal` returns an error on the input,
`loadConfiguration` returns false and leaves the monitor method, the two
default rules and the log level as they were;
(2) when `json.Unmarshal` returns no error, `loadConfiguration` returns true,
and the monitor method becomes the `ProcMonitorMethod` the package variable
`config` holds after the decode when that is not empty, and stays as it was
when that is empty;
(3) after a load that sets the monitor method to `pm`, a call of
`GetPIDFromINode` with inode `> 0` on which both caches miss works with `pm`,
whatever the method was before the load: it returns the PID of the backend
`pm` selects and runs no `/proc` scan, or, when that backend produces none or
`pm` is the proc method, runs the `/proc` scan once and returns its result. -/
theorem loadConfiguration_monitor_method (Unmarshal : GoString → Config → Config × Bool)
    (rawConfig : GoString) (g : Globals) :
    ((Unmarshal rawConfig g.config).2 = false →
      (loadConfiguration Unmarshal rawConfig g).1 = false ∧
      (loadConfiguration Unmarshal rawConfig g).2.MonitorMethod = g.MonitorMethod ∧
      (loadConfiguration Unmarshal rawConfig g).2.clientDisconnectedRule =
        g.clientDisconnectedRule ∧
      (loadConfiguration Unmarshal rawConfig g).2.clientErrorRule = g.clientErrorRule ∧
      (loadConfiguration Unmarshal rawConfig g).2.MinLevel = g.MinLevel) ∧
    ((Unmarshal rawConfig g.config).2 = true →
      (loadConfiguration Unmarshal rawConfig g).1 = true ∧
      ((Unmarshal rawConfig g.config).1.ProcMonitorMethod ≠ lit "" →
        (loadConfiguration Unmarshal rawConfig g).2.MonitorMethod =
          (Unmarshal rawConfig g.config).1.ProcMonitorMethod) ∧
      ((Unmarshal rawConfig g.config).1.ProcMonitorMethod = lit "" →
        (loadConfiguration Unmarshal rawConfig g).2.MonitorMethod = g.MonitorMethod)) ∧
    (∀ (κ : Type) (c : Collab κ) (inode : Int) (inodeKey : GoString) (s : St κ),
      0 < inode → cachesMiss c inode inodeKey s.caches →
      (Unmarshal rawConfig g.config).2 = true →
      (Unmarshal rawConfig g.config).1.ProcMonitorMethod ≠ lit "" →
      (GetPIDFromINode c (loadConfiguration Unmarshal rawConfig g).2.MonitorMethod
          inode inodeKey s).1 =
        (if backendPid c (Unmarshal rawConfig g.config).1.ProcMonitorMethod inode inodeKey = -1 ∨
            (Unmarshal rawConfig g.config).1.ProcMonitorMethod = MethodProc then
          c.lookupPidInProc (lit "/proc/") (socketLabel inode) inodeKey inode
        else backendPid c (Unmarshal rawConfig g.config).1.ProcMonitorMethod inode inodeKey) ∧
      (GetPIDFromINode c (loadConfiguration Unmarshal rawConfig g).2.MonitorMethod
          inode inodeKey s).2.trace.countP Call.isScan =
        s.trace.countP Call.isScan +
          (if backendPid c (Unmarshal rawConfig g.config).1.ProcMonitorMethod inode inodeKey = -1 ∨
              (Unmarshal rawConfig g.config).1.ProcMonitorMethod = MethodProc then 1 else 0)) := by
  have hmm := loadConfiguration_method_eq Unmarshal rawConfig g
  refine ⟨?_, ?_, ?_⟩
  · intro hbad
    simp [loadConfiguration, hbad]
  · intro hok
    refine ⟨by simp [loadConfiguration, hok], ?_, ?_⟩
    · intro hp
      rw [hmm]
      simp [hok, hp]
    · intro hp
      rw [hmm]
      simp [hp]
  · intro κ c inode inodeKey s hpos hmiss hok hp
    have hnew : (loadConfiguration Unmarshal rawConfig g).2.MonitorMethod =
        (Unmarshal rawConfig g.config).1.ProcMonitorMethod := by
      rw [hmm]
      simp [hok, hp]
    rw [hnew]
    obtain ⟨k, tr, htr, h⟩ := GetPIDFromINode_miss c
      (Unmarshal rawConfig g.config).1.ProcMonitorMethod inode inodeKey s hpos hmiss
    rw [h]
    split
    · simp [htr, Call.isScan]
    · exact ⟨rfl, by simpa using htr⟩

/-- Witness of C15 (amended), with the audit method selected at the start and
the audit event `(pid 100, ppid 1)` in the synthetic process tree.  The
rejected input `rawBadTypeConfig` leaves the audit method; `rawProcConfig` is
accepted and sets the method to `proc`; the empty object is accepted and
leaves the audit method.  Before the load of `rawProcConfig` the resolution of
inode 555 runs no `/proc` scan; after it, the resolution runs one and returns
its result. -/
theorem loadConfiguration_monitor_method_witness :
    ((loadConfiguration sampleUnmarshal rawBadTypeConfig globals0).1 = false ∧
      (loadConfiguration sampleUnmarshal rawBadTypeConfig globals0).2.MonitorMethod =
        MethodAudit) ∧
    ((loadConfiguration sampleUnmarshal rawProcConfig globals0).1 = true ∧
      (loadConfiguration sampleUnmarshal rawProcConfig globals0).2.MonitorMethod = MethodProc) ∧
    (loadConfiguration sampleUnmarshal (lit "\x7b\x7d") globals0).2.MonitorMethod = MethodAudit ∧
    (GetPIDFromINode (treeCollab [mkEvent 100 1] false []) globals0.MonitorMethod 555 []
        st0).2.trace.countP Call.isScan = 0 ∧
    ((GetPIDFromINode (treeCollab [mkEvent 100 1] false [])
        (loadConfiguration sampleUnmarshal rawProcConfig globals0).2.MonitorMethod 555 [] st0).1 =
          100 ∧
      (GetPIDFromINode (treeCollab [mkEvent 100 1] false [])
        (loadConfiguration sampleUnmarshal rawProcConfig globals0).2.MonitorMethod 555 []
          st0).2.trace.countP Call.isScan = 1) :=
  ⟨⟨((loadConfiguration_monitor_method sampleUnmarshal rawBadTypeConfig globals0).1
      (by decide)).1,
    ((loadConfiguration_monitor_method sampleUnmarshal rawBadTypeConfig globals0).1
      (by decide)).2.1⟩,
   ⟨((loadConfiguration_monitor_method sampleUnmarshal rawProcConfig globals0).2.1
      (by decide)).1,
    (((loadConfiguration_monitor_method sampleUnmarshal rawProcConfig globals0).2.1
      (by decide)).2.1 (by decide)).trans (by decide)⟩,
   ((loadConfiguration_monitor_method sampleUnmarshal (lit "\x7b\x7d") globals0).2.1
      (by decide)).2.2 (by decide),
   by decide,
   (((loadConfiguration_monitor_method sampleUnmarshal rawProcConfig globals0).2.2 Unit
      (treeCollab [mkEvent 100 1] false []) 555 [] st0 (by decide) (treeCollab_miss _ _ _ _ _ _)
      (by decide) (by decide)).1).trans (by decide),
   (((loadConfiguration_monitor_method sampleUnmarshal rawProcConfig globals0).2.2 Unit
      (treeCollab [mkEvent 100 1] false []) 555 [] st0 (by decide) (treeCollab_miss _ _ _ _ _ _)
      (by decide) (by decide)).2).trans (by decide)⟩

end Procmon
